import Mathlib

/-!
# INA219 calibration sweep (`src/main.c`)

A shallow embedding of `calculate_and_configure_calibration` and of the
configuration built by `main`.

* C `double` values are binary64 numbers.  They are represented by the rational
  number they denote, and every arithmetic operation rounds its exact result to
  the nearest binary64 value, ties to even (`rn`).  The exponent range is not
  bounded: overflow to infinity and gradual underflow are not represented, and a
  division by zero yields `0` (Lean's convention) where the C code would produce
  an infinity or a NaN.
* The conversion `(uint16_t)x` of a `double` discards the fractional part
  (`toUint16`).  ISO C defines it only when the integral part lies in
  `0..65535`.  Outside that range the model follows a build that converts
  through a 32-bit signed integer and keeps its low 16 bits: the integral part
  modulo `2^16` while it fits an `int`, and `0` beyond (the conversion then
  yields the bit pattern `0x80000000`).  The usual targets agree with this for
  integral parts from `0` up to `2^31 - 1`; statements about larger values
  carry that bound.
* `int` is a 32-bit two's complement integer; the loop increment wraps
  (`wrapInt32`).
* The driver functions (`INA219_Reset`, `INA219_setCalibration`, ...) and
  `HAL_Delay` are not part of the source file; they are a parameter
  (`Driver`), a state machine over an arbitrary device state.  The
  `INA219_CONFIG_*` macros are a parameter as well (`ConfigBits`).
* `printf` calls are recorded as structured records carrying the printed
  arguments; device calls are recorded with their arguments and, for reads,
  the value stored in the receiving variable.  Both go to one chronological
  trace.
-/

namespace INA219

/-! ## binary64 arithmetic -/

/-- The rational number `2 ^ e` for an integer exponent. -/
def pow2 (e : Int) : Rat :=
  if 0 ≤ e then ((2 ^ e.toNat : Nat) : Rat) else 1 / ((2 ^ (-e).toNat : Nat) : Rat)

/-- Number of binary digits of `n` (`0` for `0`); the first argument bounds the recursion. -/
def bitLength : Nat → Nat → Nat
  | 0, _ => 0
  | fuel + 1, n => if n = 0 then 0 else bitLength fuel (n / 2) + 1

/-- Binary exponent of a nonzero rational: the `e` with `2 ^ e ≤ |q| < 2 ^ (e + 1)`. -/
def ilog2 (q : Rat) : Int :=
  let e0 : Int := (bitLength q.num.natAbs q.num.natAbs : Int) - (bitLength q.den q.den : Int)
  if pow2 e0 ≤ |q| then e0 else e0 - 1

/-- Nearest integer, ties to the even one. -/
def roundHalfEven (q : Rat) : Int :=
  let f := Rat.floor q
  let r := q - f
  if r < 1 / 2 then f else if 1 / 2 < r then f + 1 else if f % 2 = 0 then f else f + 1

/-- Round to the nearest binary64 value (53-bit significand), ties to even. -/
def rn (q : Rat) : Rat :=
  if q = 0 then 0 else
  let u := pow2 (ilog2 q - 52)
  (roundHalfEven (q / u) : Rat) * u

/-- The binary64 division `a / b`. -/
def fdiv (a b : Rat) : Rat := rn (a / b)

/-- The binary64 multiplication `a * b`. -/
def fmul (a b : Rat) : Rat := rn (a * b)

/-- The `double` denoted by the literal `0.04096`. -/
def lit_0_04096 : Rat := rn (4096 / 100000)

/-- The conversion `(uint16_t)x` of a `double`: truncate toward zero, convert to a 32-bit
`int` and keep the low 16 bits; a truncated value outside the range of `int` gives `0`. -/
def toUint16 (x : Rat) : Nat :=
  let t : Int := if 0 ≤ x then Rat.floor x else -Rat.floor (-x)
  if -2147483648 ≤ t ∧ t ≤ 2147483647 then (t % 65536).toNat else 0

/-! ## machine integers -/

/-- Two's complement wrap-around of a 32-bit `int`. -/
def wrapInt32 (x : Int) : Int := (x + 2147483648) % 4294967296 - 2147483648

/-- Value stored in a `uint16_t` variable. -/
def u16 (x : Int) : Nat := (x % 65536).toNat

/-- Value stored in an `int16_t` variable. -/
def i16 (x : Int) : Int := (x + 32768) % 65536 - 32768

/-! ## device, records and trace -/

/-- A call made to the device driver or to the platform. -/
inductive DevOp
  | reset
  | delay (ms : Nat)
  | setCalibration (value : Nat)
  | setConfig (word : Nat)
  | readBusVoltage (ret : Nat)
  | readCurrent (ret : Int)
  | readShuntVolage (ret : Nat)
  deriving DecidableEq, Repr

/-- A line printed by the sweep, with the arguments of its `printf`. -/
inductive Record
  | header (max_current_ma : Int) (max_current_a : Rat)
  | skip (max_current_ma : Int) (scale : Int) (calibration : Nat)
  | data (i : Int) (max_current_ma : Int) (max_current_a : Rat) (scaled_lsb : Rat)
      (scale : Int) (cal_dec : Nat) (cal_hex : Nat)
      (bus_voltage_mv : Nat) (current_ma : Int) (shunt_voltage_mv : Nat)
  | footer (max_current_ma : Int) (max_current_a : Rat)
  deriving DecidableEq, Repr

/-- One observable step of the sweep. -/
inductive Event
  | dev (op : DevOp)
  | out (r : Record)
  deriving DecidableEq, Repr

/-- The driver and platform functions the sweep calls, over a device state `σ`. -/
structure Driver (σ : Type) where
  INA219_Reset : σ → σ
  HAL_Delay : Nat → σ → σ
  INA219_setCalibration : Nat → σ → σ
  INA219_setConfig : Nat → σ → σ
  INA219_ReadBusVoltage : σ → Int × σ
  INA219_ReadCurrent : σ → Int × σ
  INA219_ReadShuntVolage : σ → Int × σ

/-- The five `INA219_CONFIG_*` macros used to build the configuration word. -/
structure ConfigBits where
  BVOLTAGERANGE_32V : Nat
  GAIN_8_320MV : Nat
  BADCRES_12BIT : Nat
  SADCRES_12BIT_1S_532US : Nat
  MODE_SANDBVOLT_CONTINUOUS : Nat

/-- The state threaded through the sweep: the device and everything observed so far. -/
structure World (σ : Type) where
  dev : σ
  trace : List Event

/-- Append one event to the trace. -/
def World.log {σ : Type} (w : World σ) (e : Event) : World σ :=
  { w with trace := w.trace ++ [e] }

/-! ## the sweep -/

/-- Source line 23: `max_current_a = max_current_ma / 1000.0`. -/
def max_current_a (max_current_ma : Int) : Rat := fdiv (max_current_ma : Rat) 1000

/-- Source line 25: `current_lsb = max_current_a / 32768.0`. -/
def current_lsb (max_current_ma : Int) : Rat := fdiv (max_current_a max_current_ma) 32768

/-- Source line 31: `scaled_lsb = current_lsb * scale`. -/
def scaled_lsb (max_current_ma scale : Int) : Rat :=
  fmul (current_lsb max_current_ma) (scale : Rat)

/-- The `double` that source line 32 converts: `0.04096 / (scaled_lsb * rshunt)`. -/
def calibration_f64 (rshunt : Rat) (max_current_ma scale : Int) : Rat :=
  fdiv lit_0_04096 (fmul (scaled_lsb max_current_ma scale) rshunt)

/-- Source line 32: `calibration = (uint16_t)(0.04096 / (scaled_lsb * rshunt))`. -/
def calibration (rshunt : Rat) (max_current_ma scale : Int) : Nat :=
  toUint16 (calibration_f64 rshunt max_current_ma scale)

/-- Source lines 42-45: the configuration word, a `uint16_t`. -/
def configWord (bits : ConfigBits) : Nat :=
  (bits.BVOLTAGERANGE_32V ||| bits.GAIN_8_320MV ||| bits.BADCRES_12BIT |||
    bits.SADCRES_12BIT_1S_532US ||| bits.MODE_SANDBVOLT_CONTINUOUS) % 65536

/-- Source lines 52-58: one sample, three reads and the `DATA` line. -/
def sample {σ : Type} (D : Driver σ) (rshunt : Rat) (max_current_ma scale : Int)
    (w : World σ) (i : Int) : World σ :=
  let r1 := D.INA219_ReadBusVoltage w.dev
  let bus_voltage_mv := u16 r1.1
  let w1 : World σ := ⟨r1.2, w.trace ++ [Event.dev (DevOp.readBusVoltage bus_voltage_mv)]⟩
  let r2 := D.INA219_ReadCurrent w1.dev
  let current_ma := i16 r2.1
  let w2 : World σ := ⟨r2.2, w1.trace ++ [Event.dev (DevOp.readCurrent current_ma)]⟩
  let r3 := D.INA219_ReadShuntVolage w2.dev
  let shunt_voltage_mv := u16 r3.1
  let w3 : World σ := ⟨r3.2, w2.trace ++ [Event.dev (DevOp.readShuntVolage shunt_voltage_mv)]⟩
  w3.log (Event.out (Record.data i max_current_ma (max_current_a max_current_ma)
    (scaled_lsb max_current_ma scale) scale
    (calibration rshunt max_current_ma scale) (calibration rshunt max_current_ma scale)
    bus_voltage_mv current_ma shunt_voltage_mv))

/-- Source lines 31-59: the body of the `scale` loop. -/
def trial {σ : Type} (D : Driver σ) (bits : ConfigBits) (rshunt : Rat) (max_current_ma : Int)
    (w : World σ) (scale : Int) : World σ :=
  if 65535 < calibration rshunt max_current_ma scale then
    w.log (Event.out (Record.skip max_current_ma scale (calibration rshunt max_current_ma scale)))
  else
    let w1 : World σ := ⟨D.INA219_Reset w.dev, w.trace ++ [Event.dev DevOp.reset]⟩
    let w2 : World σ := ⟨D.HAL_Delay 1 w1.dev, w1.trace ++ [Event.dev (DevOp.delay 1)]⟩
    let config := configWord bits
    let w3 : World σ := ⟨D.INA219_setCalibration (calibration rshunt max_current_ma scale) w2.dev,
      w2.trace ++ [Event.dev (DevOp.setCalibration (calibration rshunt max_current_ma scale))]⟩
    let w4 : World σ := ⟨D.INA219_setConfig config w3.dev,
      w3.trace ++ [Event.dev (DevOp.setConfig config)]⟩
    let w5 : World σ := ⟨D.HAL_Delay 1 w4.dev, w4.trace ++ [Event.dev (DevOp.delay 1)]⟩
    [1, 2, 3].foldl (sample D rshunt max_current_ma scale) w5

/-- Source lines 23-62: the body of the `max_current_ma` loop. -/
def block {σ : Type} (D : Driver σ) (bits : ConfigBits) (rshunt : Rat)
    (w : World σ) (max_current_ma : Int) : World σ :=
  let w1 := w.log (Event.out (Record.header max_current_ma (max_current_a max_current_ma)))
  let w2 := [1, 2, 3, 4, 5, 6, 7, 8].foldl (trial D bits rshunt max_current_ma) w1
  w2.log (Event.out (Record.footer max_current_ma (max_current_a max_current_ma)))

/-- How a run ended: the function returned, or the iteration budget ran out first. -/
inductive Outcome (σ : Type)
  | returned (w : World σ)
  | running (w : World σ)

/-- The world reached, whether or not the function returned. -/
def Outcome.world {σ : Type} : Outcome σ → World σ
  | Outcome.returned w => w
  | Outcome.running w => w

/-- Source line 21: the `max_current_ma` loop; `fuel` bounds the number of iterations. -/
def sweepLoop {σ : Type} (D : Driver σ) (bits : ConfigBits) (rshunt : Rat) (imax istep : Int) :
    Nat → Int → World σ → Outcome σ
  | 0, _, w => Outcome.running w
  | fuel + 1, max_current_ma, w =>
    if max_current_ma ≤ imax then
      sweepLoop D bits rshunt imax istep fuel (wrapInt32 (max_current_ma + istep))
        (block D bits rshunt w max_current_ma)
    else Outcome.returned w

/-- Source lines 19-64. -/
def calculate_and_configure_calibration {σ : Type} (D : Driver σ) (bits : ConfigBits)
    (rshunt : Rat) (imin imax istep : Int) (fuel : Nat) (w : World σ) : Outcome σ :=
  sweepLoop D bits rshunt imax istep fuel imin w

/-- The argument `rshunt` passed by `main`: the `double` denoted by the literal `0.1`. -/
def main_rshunt : Rat := rn (1 / 10)

/-- Source lines 71-76: the call made by `main`. -/
def main_sweep {σ : Type} (D : Driver σ) (bits : ConfigBits) (fuel : Nat) (w : World σ) :
    Outcome σ :=
  calculate_and_configure_calibration D bits main_rshunt 205 3200 5 fuel w

/-! ## the formula of the specification -/

/-- Spec formula (section 4.1), before the floor: `0.04096 / (scaled_lsb * shunt_ohms)` with
`scaled_lsb = ((max_current_mA / 1000) / 32768) * scale`, in exact rational arithmetic. -/
def calibration_quotient_spec (shunt_ohms : Rat) (max_current_mA scale : Int) : Rat :=
  (4096 / 100000 : Rat) / ((((max_current_mA : Rat) / 1000) / 32768) * scale * shunt_ohms)

/-- Spec formula (section 4.1): `calibration_raw = floor(0.04096 / (scaled_lsb * shunt_ohms))`,
in exact rational arithmetic. -/
def calibration_raw_spec (shunt_ohms : Rat) (max_current_mA scale : Int) : Int :=
  Rat.floor (calibration_quotient_spec shunt_ohms max_current_mA scale)

/-! ## a simulated device, for evaluating the sweep on concrete inputs -/

/-- A simulated device whose state counts the reads answered so far; the bus voltage, the
current and the shunt voltage it reports vary with that count. -/
def simDriver : Driver Nat where
  INA219_Reset := fun s => s
  HAL_Delay := fun _ s => s
  INA219_setCalibration := fun _ s => s
  INA219_setConfig := fun _ s => s
  INA219_ReadBusVoltage := fun s => (12000 + (s : Int), s + 1)
  INA219_ReadCurrent := fun s => (-(s : Int), s + 1)
  INA219_ReadShuntVolage := fun s => ((s : Int), s + 1)

/-- The values the `INA219_CONFIG_*` macros have in the customary INA219 driver header
(the header is not part of the source; used for concrete evaluation only). -/
def stdBits : ConfigBits := ⟨0x2000, 0x1800, 0x0180, 0x0018, 0x0007⟩

/-- An initial world: the simulated device before any read, nothing observed yet. -/
def simWorld : World Nat := ⟨0, []⟩

/-! ## observations on a trace -/

/-- The device call of an event, if it is one. -/
def Event.devOp? : Event → Option DevOp
  | Event.dev op => some op
  | Event.out _ => none

/-- The printed record of an event, if it is one. -/
def Event.record? : Event → Option Record
  | Event.dev _ => none
  | Event.out r => some r

/-- The device calls of a trace, in order. -/
def devOps (t : List Event) : List DevOp := t.filterMap Event.devOp?

/-- The printed records of a trace, in order. -/
def records (t : List Event) : List Record := t.filterMap Event.record?

/-- The value a device read returned, for a read event. -/
def Event.readValue? : Event → Option Int
  | Event.dev (DevOp.readBusVoltage v) => some (v : Int)
  | Event.dev (DevOp.readCurrent v) => some v
  | Event.dev (DevOp.readShuntVolage v) => some (v : Int)
  | _ => none

/-- The sequence of device read responses of a trace. -/
def readValues (t : List Event) : List Int := t.filterMap Event.readValue?

/-- The `max_current_ma` of a section-header record. -/
def Event.headerValue? : Event → Option Int
  | Event.out (Record.header ma _) => some ma
  | _ => none

/-- The `max_current_ma` values of the section headers of a trace, in order. -/
def headerValues (t : List Event) : List Int := t.filterMap Event.headerValue?

/-- The value written to the calibration register, for a `set_calibration` call. -/
def Event.calibrationWrite? : Event → Option Nat
  | Event.dev (DevOp.setCalibration v) => some v
  | _ => none

/-- The values written to the calibration register in a trace, in order. -/
def calibrationWrites (t : List Event) : List Nat := t.filterMap Event.calibrationWrite?

/-- What a trace shows of the order of the sweep: a section header, or the first line of a
trial point (its `SKIP` line, or its `DATA` line of sample 1). -/
inductive Mark
  | block (max_current_ma : Int)
  | point (max_current_ma scale : Int)
  deriving DecidableEq, Repr

/-- The mark an event leaves, if any. -/
def Event.mark? : Event → Option Mark
  | Event.out (Record.header ma _) => some (Mark.block ma)
  | Event.out (Record.skip ma scale _) => some (Mark.point ma scale)
  | Event.out (Record.data i ma _ _ scale _ _ _ _ _) =>
    if i = 1 then some (Mark.point ma scale) else none
  | _ => none

/-- The marks of a trace, in order. -/
def marks (t : List Event) : List Mark := t.filterMap Event.mark?

/-- The kind of a printed line or of a calibration write, without the measured values. -/
inductive Tag
  | header (max_current_ma : Int)
  | skip (max_current_ma scale : Int)
  | program (value : Nat)
  | data (i max_current_ma scale : Int)
  | footer (max_current_ma : Int)
  deriving DecidableEq, Repr

/-- The tag of an event, if it is a printed line or a calibration write. -/
def Event.tag? : Event → Option Tag
  | Event.out (Record.header ma _) => some (Tag.header ma)
  | Event.out (Record.skip ma scale _) => some (Tag.skip ma scale)
  | Event.out (Record.data i ma _ _ scale _ _ _ _ _) => some (Tag.data i ma scale)
  | Event.out (Record.footer ma _) => some (Tag.footer ma)
  | Event.dev (DevOp.setCalibration v) => some (Tag.program v)
  | _ => none

/-- The tags of a trace, in order. -/
def tags (t : List Event) : List Tag := t.filterMap Event.tag?

/-- Whether a record is a `SKIP` line. -/
def Record.isSkip : Record → Bool
  | Record.skip _ _ _ => true
  | _ => false

/-- Whether a record is a `SKIP` or `DATA` line of the given `max_current_ma`. -/
def Record.isTrialLineOf (ma : Int) : Record → Bool
  | Record.skip ma' _ _ => decide (ma' = ma)
  | Record.data _ ma' _ _ _ _ _ _ _ _ => decide (ma' = ma)
  | _ => false

/-- The records of one block: header, body, footer. -/
def blockRecords (b : Int × List Record) : List Record :=
  Record.header b.1 (max_current_a b.1) :: (b.2 ++ [Record.footer b.1 (max_current_a b.1)])

/-- The events a step added to a trace that had `n` events before it. -/
def newEvents (n : Nat) (t : List Event) : List Event := t.drop n

/-- Two steps, possibly on different devices, agree: each extends the trace, both consume
the same number of read responses, and equal responses give equal extensions. -/
def Agree {σ₁ σ₂ : Type} (f₁ : World σ₁ → World σ₁) (f₂ : World σ₂ → World σ₂) : Prop :=
  ∃ L : Nat, ∀ (w₁ : World σ₁) (w₂ : World σ₂), ∃ n₁ n₂ : List Event,
    (f₁ w₁).trace = w₁.trace ++ n₁ ∧ (f₂ w₂).trace = w₂.trace ++ n₂ ∧
    (readValues n₁).length = L ∧ (readValues n₂).length = L ∧
    (readValues n₁ = readValues n₂ → n₁ = n₂)

/-- A second simulated device: it answers reads like `simDriver` but also counts the
writes and resets it receives. -/
def simDriverAlt : Driver (Nat × Nat) where
  INA219_Reset := fun s => (s.1, s.2 + 1)
  HAL_Delay := fun _ s => s
  INA219_setCalibration := fun _ s => (s.1, s.2 + 1)
  INA219_setConfig := fun _ s => (s.1, s.2 + 1)
  INA219_ReadBusVoltage := fun s => (12000 + (s.1 : Int), (s.1 + 1, s.2))
  INA219_ReadCurrent := fun s => (-(s.1 : Int), (s.1 + 1, s.2))
  INA219_ReadShuntVolage := fun s => ((s.1 : Int), (s.1 + 1, s.2))

/-- The `max_current_ma` of a section-footer record. -/
def Event.footerValue? : Event → Option Int
  | Event.out (Record.footer ma _) => some ma
  | _ => none

/-- The `max_current_ma` values of the section footers of a trace, in order. -/
def footerValues (t : List Event) : List Int := t.filterMap Event.footerValue?

/-- The sample index of a `DATA` record. -/
def Event.dataIndex? : Event → Option Int
  | Event.out (Record.data i _ _ _ _ _ _ _ _ _) => some i
  | _ => none

/-- The sample indices of the `DATA` records of a trace, in order. -/
def dataIndices (t : List Event) : List Int := t.filterMap Event.dataIndex?

/-- The trial point and the value of a `SKIP` record. -/
def Event.skipLine? : Event → Option (Int × Int × Nat)
  | Event.out (Record.skip ma scale cal) => some (ma, scale, cal)
  | _ => none

/-- The `SKIP` records of a trace, in order. -/
def skipLines (t : List Event) : List (Int × Int × Nat) := t.filterMap Event.skipLine?

/-- The tag of a printed line. -/
def Record.tag : Record → Tag
  | Record.header ma _ => Tag.header ma
  | Record.skip ma scale _ => Tag.skip ma scale
  | Record.data i ma _ _ scale _ _ _ _ _ => Tag.data i ma scale
  | Record.footer ma _ => Tag.footer ma

/-- The device after the driver calls of one trial that is not skipped (source lines
40-54), applied in order to the device state `d`: reset, delay, calibration write,
configuration write, delay, then three times the reads of bus voltage, current and shunt
voltage. -/
def trialDevice {σ : Type} (D : Driver σ) (bits : ConfigBits) (rshunt : Rat)
    (max_current_ma : Int) (d : σ) (scale : Int) : σ :=
  let d1 := D.INA219_Reset d
  let d2 := D.HAL_Delay 1 d1
  let d3 := D.INA219_setCalibration (calibration rshunt max_current_ma scale) d2
  let d4 := D.INA219_setConfig (configWord bits) d3
  let d5 := D.HAL_Delay 1 d4
  let d6 := (D.INA219_ReadShuntVolage (D.INA219_ReadCurrent (D.INA219_ReadBusVoltage d5).2).2).2
  let d7 := (D.INA219_ReadShuntVolage (D.INA219_ReadCurrent (D.INA219_ReadBusVoltage d6).2).2).2
  (D.INA219_ReadShuntVolage (D.INA219_ReadCurrent (D.INA219_ReadBusVoltage d7).2).2).2

/-- The device after the eight trials of one block, none skipped. -/
def blockDevice {σ : Type} (D : Driver σ) (bits : ConfigBits) (rshunt : Rat)
    (d : σ) (max_current_ma : Int) : σ :=
  [1, 2, 3, 4, 5, 6, 7, 8].foldl (trialDevice D bits rshunt max_current_ma) d

/-- Counters of the calls a device has received. -/
structure Calls where
  resets : Nat
  delays : Nat
  calibrations : Nat
  configs : Nat
  reads : Nat
  deriving DecidableEq, Repr

/-- A simulated device that only counts the calls it receives; every read returns 0. -/
def countDriver : Driver Calls where
  INA219_Reset := fun c => { c with resets := c.resets + 1 }
  HAL_Delay := fun _ c => { c with delays := c.delays + 1 }
  INA219_setCalibration := fun _ c => { c with calibrations := c.calibrations + 1 }
  INA219_setConfig := fun _ c => { c with configs := c.configs + 1 }
  INA219_ReadBusVoltage := fun c => (0, { c with reads := c.reads + 1 })
  INA219_ReadCurrent := fun c => (0, { c with reads := c.reads + 1 })
  INA219_ReadShuntVolage := fun c => (0, { c with reads := c.reads + 1 })

/-- The values the loop variable of source line 21 takes in the iterations begun within
the iteration budget. -/
def loopValues (imax istep : Int) : Nat → Int → List Int
  | 0, _ => []
  | fuel + 1, max_current_ma =>
    if max_current_ma ≤ imax then
      max_current_ma :: loopValues imax istep fuel (wrapInt32 (max_current_ma + istep))
    else []

/-- Number of iterations of the `max_current_ma` loop when `istep > 0` and nothing wraps. -/
def tripCount (imin imax istep : Int) : Nat := ((imax - imin) / istep + 1).toNat

/-- The values `imin, imin + istep, imin + 2 * istep, ...` not exceeding `imax`. -/
def visited (imin imax istep : Int) : List Int :=
  (List.range (tripCount imin imax istep)).map (fun (k : Nat) => imin + (k : Int) * istep)

end INA219

namespace INA219

/-! ## how each step extends the trace -/

theorem log_trace {σ : Type} (w : World σ) (e : Event) : (w.log e).trace = w.trace ++ [e] := rfl

theorem log_dev {σ : Type} (w : World σ) (e : Event) : (w.log e).dev = w.dev := rfl

/-- A skipped trial appends the `SKIP` record and nothing else. -/
theorem trial_skipped {σ : Type} (D : Driver σ) (bits : ConfigBits) (rshunt : Rat)
    (ma scale : Int) (w : World σ) (h : 65535 < calibration rshunt ma scale) :
    trial D bits rshunt ma w scale =
      w.log (Event.out (Record.skip ma scale (calibration rshunt ma scale))) := by
  simp [trial, h]

/-- A programmed trial appends seventeen events: five device calls, then three times three
reads and a `DATA` record. -/
theorem trial_programmed {σ : Type} (D : Driver σ) (bits : ConfigBits) (rshunt : Rat)
    (ma scale : Int) (w : World σ) (h : ¬ 65535 < calibration rshunt ma scale) :
    ∃ b1 c1 s1 b2 c2 s2 b3 c3 s3,
      (trial D bits rshunt ma w scale).trace = w.trace ++
        [Event.dev DevOp.reset, Event.dev (DevOp.delay 1),
         Event.dev (DevOp.setCalibration (calibration rshunt ma scale)),
         Event.dev (DevOp.setConfig (configWord bits)), Event.dev (DevOp.delay 1),
         Event.dev (DevOp.readBusVoltage b1), Event.dev (DevOp.readCurrent c1),
         Event.dev (DevOp.readShuntVolage s1),
         Event.out (Record.data 1 ma (max_current_a ma) (scaled_lsb ma scale) scale
           (calibration rshunt ma scale) (calibration rshunt ma scale) b1 c1 s1),
         Event.dev (DevOp.readBusVoltage b2), Event.dev (DevOp.readCurrent c2),
         Event.dev (DevOp.readShuntVolage s2),
         Event.out (Record.data 2 ma (max_current_a ma) (scaled_lsb ma scale) scale
           (calibration rshunt ma scale) (calibration rshunt ma scale) b2 c2 s2),
         Event.dev (DevOp.readBusVoltage b3), Event.dev (DevOp.readCurrent c3),
         Event.dev (DevOp.readShuntVolage s3),
         Event.out (Record.data 3 ma (max_current_a ma) (scaled_lsb ma scale) scale
           (calibration rshunt ma scale) (calibration rshunt ma scale) b3 c3 s3)] := by
  simp only [trial, h, if_false, List.foldl_cons, List.foldl_nil, sample, World.log,
    List.append_assoc, List.singleton_append, List.cons_append, List.nil_append]
  exact ⟨_, _, _, _, _, _, _, _, _, rfl⟩

/-- A fold of steps, each extending the trace by events whose projection is known, extends
the trace by events whose projection is the concatenation. -/
theorem foldl_filterMap {σ α β : Type} (F : World σ → α → World σ) (p : Event → Option β)
    (g : α → List β)
    (h : ∀ w x, ∃ new, (F w x).trace = w.trace ++ new ∧ new.filterMap p = g x) :
    ∀ (xs : List α) (w : World σ),
      ∃ new, (xs.foldl F w).trace = w.trace ++ new ∧ new.filterMap p = xs.flatMap g := by
  intro xs
  induction xs with
  | nil => intro w; exact ⟨[], by simp, by simp⟩
  | cons x xs ih =>
    intro w
    obtain ⟨n1, h1, h2⟩ := h w x
    obtain ⟨n2, h3, h4⟩ := ih (F w x)
    refine ⟨n1 ++ n2, ?_, ?_⟩
    · rw [List.foldl_cons, h3, h1, List.append_assoc]
    · rw [List.filterMap_append, h2, h4, List.flatMap_cons]

/-- The projection of a block, from the projection of its trials. -/
theorem block_filterMap {σ β : Type} (D : Driver σ) (bits : ConfigBits) (rshunt : Rat)
    (p : Event → Option β) (g : Int → Int → List β)
    (h : ∀ ma w scale, ∃ new, (trial D bits rshunt ma w scale).trace = w.trace ++ new ∧
      new.filterMap p = g ma scale) (w : World σ) (ma : Int) :
    ∃ new, (block D bits rshunt w ma).trace = w.trace ++ new ∧
      new.filterMap p =
        [Event.out (Record.header ma (max_current_a ma))].filterMap p ++
        ([1, 2, 3, 4, 5, 6, 7, 8].flatMap (g ma) ++
        [Event.out (Record.footer ma (max_current_a ma))].filterMap p) := by
  obtain ⟨n, h1, h2⟩ := foldl_filterMap (trial D bits rshunt ma) p (g ma) (h ma)
    [1, 2, 3, 4, 5, 6, 7, 8] (w.log (Event.out (Record.header ma (max_current_a ma))))
  refine ⟨[Event.out (Record.header ma (max_current_a ma))] ++ (n ++
    [Event.out (Record.footer ma (max_current_a ma))]), ?_, ?_⟩
  · simp only [block, log_trace, h1, List.append_assoc]
  · rw [List.filterMap_append, List.filterMap_append, h2]

/-! ## the outer loop -/

theorem wrapInt32_id (x : Int) (h1 : -2147483648 ≤ x) (h2 : x ≤ 2147483647) :
    wrapInt32 x = x := by
  unfold wrapInt32
  omega

theorem tripCount_zero (ma imax istep : Int) (hstep : 0 < istep) (h : imax < ma) :
    tripCount ma imax istep = 0 := by
  unfold tripCount
  have : (imax - ma) / istep < 0 := Int.ediv_lt_of_lt_mul hstep (by omega)
  omega

theorem tripCount_succ (ma imax istep : Int) (hstep : 0 < istep) (h : ma ≤ imax) :
    tripCount ma imax istep = tripCount (ma + istep) imax istep + 1 := by
  unfold tripCount
  have h0 : 0 ≤ (imax - ma) / istep := Int.ediv_nonneg (by omega) (by omega)
  have h1 : (imax - (ma + istep)) / istep = (imax - ma) / istep - 1 := by
    have : imax - (ma + istep) = (imax - ma) + (-1) * istep := by ring
    rw [this, Int.add_mul_ediv_right _ _ (by omega)]
    ring
  rw [h1]
  omega

theorem visited_nil (ma imax istep : Int) (hstep : 0 < istep) (h : imax < ma) :
    visited ma imax istep = [] := by
  simp [visited, tripCount_zero ma imax istep hstep h]

theorem visited_cons (ma imax istep : Int) (hstep : 0 < istep) (h : ma ≤ imax) :
    visited ma imax istep = ma :: visited (ma + istep) imax istep := by
  unfold visited
  rw [tripCount_succ ma imax istep hstep h, List.range_succ_eq_map, List.map_cons, List.map_map]
  simp only [Nat.cast_zero, zero_mul, add_zero, List.cons.injEq, true_and]
  apply List.map_congr_left
  intro k _
  simp only [Function.comp, Nat.succ_eq_add_one, Nat.cast_add, Nat.cast_one]
  ring

/-- With a positive step and no wrap-around, the loop returns once the iteration budget
exceeds the trip count, having run the block for each visited value in order. -/
theorem sweepLoop_returns {σ : Type} (D : Driver σ) (bits : ConfigBits) (rshunt : Rat)
    (imax istep : Int) (hstep : 0 < istep) (hmax : imax + istep ≤ 2147483647) :
    ∀ (fuel : Nat) (ma : Int) (w : World σ), -2147483648 ≤ ma →
      tripCount ma imax istep < fuel →
      sweepLoop D bits rshunt imax istep fuel ma w =
        Outcome.returned ((visited ma imax istep).foldl (block D bits rshunt) w) := by
  intro fuel
  induction fuel with
  | zero => intro ma w _ h; omega
  | succ fuel ih =>
    intro ma w hlo hfuel
    by_cases hle : ma ≤ imax
    · have hw : wrapInt32 (ma + istep) = ma + istep := wrapInt32_id _ (by omega) (by omega)
      rw [sweepLoop, if_pos hle, hw, ih (ma + istep) _ (by omega)
        (by rw [tripCount_succ ma imax istep hstep hle] at hfuel; omega),
        visited_cons ma imax istep hstep hle, List.foldl_cons]
    · rw [sweepLoop, if_neg hle, visited_nil ma imax istep hstep (by omega), List.foldl_nil]

/-! ## rounding error of binary64 operations -/

theorem pow2_eq_zpow (e : Int) : pow2 e = (2 : Rat) ^ e := by
  unfold pow2
  split_ifs with h
  · lift e to Nat using h
    simp
  · obtain ⟨n, hn⟩ : ∃ n : Nat, e = -(n : Int) := ⟨(-e).toNat, by omega⟩
    subst hn
    simp [zpow_neg]

theorem bitLength_spec : ∀ (fuel n : Nat), n ≤ fuel → 0 < n →
    2 ^ (bitLength fuel n - 1) ≤ n ∧ n < 2 ^ bitLength fuel n
  | 0, n, h, hp => by omega
  | fuel + 1, n, h, hp => by
    rw [bitLength, if_neg (by omega)]
    by_cases h2 : n / 2 = 0
    · have h1 : n = 1 := by omega
      subst h1
      cases fuel <;> simp [bitLength]
    · obtain ⟨ih1, ih2⟩ := bitLength_spec fuel (n / 2) (by omega) (by omega)
      have hb : 1 ≤ bitLength fuel (n / 2) := by
        rcases Nat.eq_zero_or_pos (bitLength fuel (n / 2)) with h0 | h0
        · rw [h0] at ih2; simp at ih2; omega
        · exact h0
      have e1 : bitLength fuel (n / 2) + 1 - 1 = (bitLength fuel (n / 2) - 1) + 1 := by omega
      rw [e1, pow_succ, pow_succ]
      constructor <;> omega

theorem ilog2_le (q : Rat) (hq : q ≠ 0) : (2 : Rat) ^ ilog2 q ≤ |q| := by
  unfold ilog2
  simp only
  split_ifs with h
  · rwa [pow2_eq_zpow] at h
  · have hN : 0 < q.num.natAbs := Int.natAbs_pos.mpr (Rat.num_ne_zero.mpr hq)
    have hD : 0 < q.den := q.den_pos
    obtain ⟨a1, -⟩ := bitLength_spec _ _ (le_refl q.num.natAbs) hN
    obtain ⟨-, b2⟩ := bitLength_spec _ _ (le_refl q.den) hD
    have ha : 1 ≤ bitLength q.num.natAbs q.num.natAbs := by
      obtain ⟨-, a2⟩ := bitLength_spec _ _ (le_refl q.num.natAbs) hN
      rcases Nat.eq_zero_or_pos (bitLength q.num.natAbs q.num.natAbs) with h0 | h0
      · rw [h0, pow_zero] at a2; omega
      · exact h0
    have habs : |q| = (q.num.natAbs : Rat) / (q.den : Rat) := by
      rw [Rat.abs_def, Rat.divInt_eq_div]
      simp [Nat.cast_natAbs]
    rw [habs, le_div_iff₀ (by exact_mod_cast hD)]
    set a := bitLength q.num.natAbs q.num.natAbs
    set b := bitLength q.den q.den
    have h1 : (2 : Rat) ^ ((a : Int) - (b : Int) - 1) * (q.den : Rat) ≤
        (2 : Rat) ^ ((a : Int) - (b : Int) - 1) * (2 : Rat) ^ (b : Int) := by
      apply mul_le_mul_of_nonneg_left _ (by positivity)
      rw [zpow_natCast]
      exact_mod_cast b2.le
    have h2 : (2 : Rat) ^ ((a : Int) - (b : Int) - 1) * (2 : Rat) ^ (b : Int) =
        ((2 ^ (a - 1) : Nat) : Rat) := by
      rw [← zpow_add₀ (by norm_num)]
      have : (a : Int) - (b : Int) - 1 + (b : Int) = ((a - 1 : Nat) : Int) := by omega
      rw [this, zpow_natCast]
      push_cast
      rfl
    calc (2 : Rat) ^ ((a : Int) - (b : Int) - 1) * (q.den : Rat)
        ≤ ((2 ^ (a - 1) : Nat) : Rat) := by rw [← h2]; exact h1
      _ ≤ (q.num.natAbs : Rat) := by exact_mod_cast a1

theorem ilog2_lt (q : Rat) (hq : q ≠ 0) : |q| < (2 : Rat) ^ (ilog2 q + 1) := by
  unfold ilog2
  simp only
  split_ifs with h
  · have hN : 0 < q.num.natAbs := Int.natAbs_pos.mpr (Rat.num_ne_zero.mpr hq)
    have hD : 0 < q.den := q.den_pos
    obtain ⟨-, a2⟩ := bitLength_spec _ _ (le_refl q.num.natAbs) hN
    obtain ⟨b1, b2⟩ := bitLength_spec _ _ (le_refl q.den) hD
    have hb : 1 ≤ bitLength q.den q.den := by
      rcases Nat.eq_zero_or_pos (bitLength q.den q.den) with h0 | h0
      · rw [h0, pow_zero] at b2; omega
      · exact h0
    have habs : |q| = (q.num.natAbs : Rat) / (q.den : Rat) := by
      rw [Rat.abs_def, Rat.divInt_eq_div]
      simp [Nat.cast_natAbs]
    rw [habs, div_lt_iff₀ (by exact_mod_cast hD)]
    set a := bitLength q.num.natAbs q.num.natAbs
    set b := bitLength q.den q.den
    have h1 : (2 : Rat) ^ ((a : Int) - (b : Int) + 1) * (2 : Rat) ^ (((b - 1 : Nat) : Int)) ≤
        (2 : Rat) ^ ((a : Int) - (b : Int) + 1) * (q.den : Rat) := by
      apply mul_le_mul_of_nonneg_left _ (by positivity)
      rw [zpow_natCast]
      exact_mod_cast b1
    have h2 : (2 : Rat) ^ ((a : Int) - (b : Int) + 1) * (2 : Rat) ^ (((b - 1 : Nat) : Int)) =
        ((2 ^ a : Nat) : Rat) := by
      rw [← zpow_add₀ (by norm_num)]
      have : (a : Int) - (b : Int) + 1 + ((b - 1 : Nat) : Int) = (a : Int) := by omega
      rw [this, zpow_natCast]
      push_cast
      rfl
    calc (q.num.natAbs : Rat) < ((2 ^ a : Nat) : Rat) := by exact_mod_cast a2
      _ ≤ (2 : Rat) ^ ((a : Int) - (b : Int) + 1) * (q.den : Rat) := by rw [← h2]; exact h1
  · rw [pow2_eq_zpow] at h
    have : (bitLength q.num.natAbs q.num.natAbs : Int) - (bitLength q.den q.den : Int) - 1 + 1 =
        (bitLength q.num.natAbs q.num.natAbs : Int) - (bitLength q.den q.den : Int) := by ring
    rw [this]
    exact not_le.mp h

/-- The model agrees with the familiar binary64 values of `0.1`, `0.04096` and `0.205`. -/
theorem rn_examples :
    rn (1 / 10) = 3602879701896397 / 36028797018963968 ∧
    lit_0_04096 = 5902958103587057 / 144115188075855872 ∧
    rn (205 / 1000) = 7385903388887613 / 36028797018963968 ∧
    rn 1 = 1 ∧ rn (-3 / 4) = -3 / 4 ∧ rn (9007199254740993) = 9007199254740992 := by
  decide!

theorem roundHalfEven_err (x : Rat) : |(roundHalfEven x : Rat) - x| ≤ 1 / 2 := by
  have h1 : ((Rat.floor x : Int) : Rat) ≤ x := Int.floor_le x
  have h2 : x < ((Rat.floor x : Int) : Rat) + 1 := Int.lt_floor_add_one x
  unfold roundHalfEven
  simp only
  split_ifs with c1 c2 c3 <;> rw [abs_le] <;> constructor <;> push_cast <;> linarith

/-- Rounding to binary64 changes a value by at most the fraction `2 ^ (-53)` of it. -/
theorem rn_err (q : Rat) : |rn q - q| ≤ |q| * (1 / 2 ^ 53) := by
  unfold rn
  split_ifs with h0
  · simp [h0]
  · simp only
    rw [pow2_eq_zpow]
    set u : Rat := (2 : Rat) ^ (ilog2 q - 52) with hu
    have hupos : 0 < u := by positivity
    have h1 : (roundHalfEven (q / u) : Rat) * u - q = ((roundHalfEven (q / u) : Rat) - q / u) * u := by
      field_simp
    rw [h1, abs_mul, abs_of_pos hupos]
    have h2 := roundHalfEven_err (q / u)
    have h3 : u = (2 : Rat) ^ ilog2 q * (1 / 2 ^ 52) := by
      rw [hu, zpow_sub₀ (by norm_num), div_eq_mul_one_div]
      norm_num
    have h4 := ilog2_le q h0
    calc |(roundHalfEven (q / u) : Rat) - q / u| * u ≤ 1 / 2 * u :=
          mul_le_mul_of_nonneg_right h2 hupos.le
      _ = (2 : Rat) ^ ilog2 q * (1 / 2 ^ 53) := by rw [h3]; ring
      _ ≤ |q| * (1 / 2 ^ 53) := mul_le_mul_of_nonneg_right h4 (by positivity)

theorem near_rn (δ x y : Rat) (hδ : δ ≤ 1) (h : |y - x| ≤ δ * |x|) :
    |rn y - x| ≤ (δ + 1 / 2 ^ 52) * |x| := by
  have h1 := rn_err y
  have h2 : |y| ≤ |x| + |y - x| := by
    have := abs_add (y - x) x
    simp only [sub_add_cancel] at this
    linarith
  have h3 : |rn y - x| ≤ |rn y - y| + |y - x| := by
    have := abs_add (rn y - y) (y - x)
    simp only [sub_add_sub_cancel] at this
    exact this
  have hx : 0 ≤ |x| := abs_nonneg x
  have h4 : |y| ≤ 2 * |x| := by nlinarith
  calc |rn y - x| ≤ |rn y - y| + |y - x| := h3
    _ ≤ |y| * (1 / 2 ^ 53) + δ * |x| := by linarith
    _ ≤ (2 * |x|) * (1 / 2 ^ 53) + δ * |x| := by
        have : |y| * (1 / 2 ^ 53 : Rat) ≤ (2 * |x|) * (1 / 2 ^ 53) :=
          mul_le_mul_of_nonneg_right h4 (by positivity)
        linarith
    _ = (δ + 1 / 2 ^ 52) * |x| := by ring

theorem near_mul (δ x y c : Rat) (h : |y - x| ≤ δ * |x|) :
    |y * c - x * c| ≤ δ * |x * c| := by
  have : y * c - x * c = (y - x) * c := by ring
  rw [this, abs_mul, abs_mul, ← mul_assoc]
  exact mul_le_mul_of_nonneg_right h (abs_nonneg c)

theorem near_div (δ x y c : Rat) (h : |y - x| ≤ δ * |x|) :
    |y / c - x / c| ≤ δ * |x / c| := by
  simpa [div_eq_mul_inv] using near_mul δ x y c⁻¹ h

/-- The three roundings behind `scaled_lsb` keep it within `3 * 2 ^ (-52)` of the exact
value `max_current_ma * scale / 32768000`. -/
theorem scaled_lsb_near (ma scale : Int) :
    |scaled_lsb ma scale - (ma : Rat) * scale / 32768000| ≤
      3 / 2 ^ 52 * |(ma : Rat) * scale / 32768000| := by
  have h1 : |max_current_a ma - (ma : Rat) / 1000| ≤ (0 + 1 / 2 ^ 52) * |(ma : Rat) / 1000| :=
    near_rn 0 _ _ (by norm_num) (by simp)
  have h2 := near_rn _ _ _ (by norm_num) (near_div _ _ _ 32768 h1)
  have h3 := near_rn _ _ _ (by norm_num) (near_mul _ _ _ (scale : Rat) h2)
  have e : (ma : Rat) / 1000 / 32768 * scale = (ma : Rat) * scale / 32768000 := by ring
  rw [e] at h3
  have e2 : (0 + 1 / 2 ^ 52 + 1 / 2 ^ 52 + 1 / 2 ^ 52 : Rat) = 3 / 2 ^ 52 := by norm_num
  rw [e2] at h3
  exact h3

theorem toUint16_lt (x : Rat) : toUint16 x < 65536 := by
  unfold toUint16
  simp only
  have h1 := Int.emod_lt_of_pos (if 0 ≤ x then Rat.floor x else -Rat.floor (-x))
    (show (0 : Int) < 65536 by norm_num)
  have h2 := Int.emod_nonneg (if 0 ≤ x then Rat.floor x else -Rat.floor (-x))
    (show (65536 : Int) ≠ 0 by norm_num)
  split_ifs <;> omega

/-- A `uint16_t` never exceeds 65535. -/
theorem calibration_le (rshunt : Rat) (ma scale : Int) : calibration rshunt ma scale ≤ 65535 := by
  have := toUint16_lt (calibration_f64 rshunt ma scale)
  unfold calibration
  omega

/-- While the integral part of a nonnegative `double` fits an `int`, the conversion keeps
its low 16 bits. -/
theorem toUint16_of_floor_wrap (x : Rat) (n : Int) (h0 : 0 ≤ n) (h1 : n ≤ 2147483647)
    (hlo : (n : Rat) ≤ x) (hhi : x < (n : Rat) + 1) : toUint16 x = (n % 65536).toNat := by
  have hx : 0 ≤ x := le_trans (by exact_mod_cast h0) hlo
  have hf : Rat.floor x = n := by
    have : ⌊x⌋ = n := Int.floor_eq_iff.mpr ⟨hlo, hhi⟩
    exact this
  unfold toUint16
  simp only
  rw [if_pos hx, hf, if_pos ⟨by omega, h1⟩]

theorem toUint16_of_floor (x : Rat) (n : Int) (h0 : 0 ≤ n) (h1 : n ≤ 65535)
    (hlo : (n : Rat) ≤ x) (hhi : x < (n : Rat) + 1) : toUint16 x = n.toNat := by
  rw [toUint16_of_floor_wrap x n h0 (by omega) hlo hhi, Int.emod_eq_of_lt h0 (by omega)]

theorem calibration_quotient_spec_eq (rshunt : Rat) (ma scale : Int) :
    calibration_quotient_spec rshunt ma scale =
      (134217728 / 100 : Rat) / ((ma : Rat) * scale * rshunt) := by
  unfold calibration_quotient_spec
  by_cases h : (ma : Rat) * scale * rshunt = 0
  · have h2 : (ma : Rat) / 1000 / 32768 * scale * rshunt = 0 := by
      have : (ma : Rat) / 1000 / 32768 * scale * rshunt =
          ((ma : Rat) * scale * rshunt) / 32768000 := by ring
      rw [this, h, zero_div]
    rw [h, h2, div_zero, div_zero]
  · have h1 : (ma : Rat) ≠ 0 := fun e => h (by rw [e]; ring)
    have h2 : (scale : Rat) ≠ 0 := fun e => h (by rw [e]; ring)
    have h3 : rshunt ≠ 0 := fun e => h (by rw [e]; ring)
    field_simp
    ring

/-- The binary64 evaluation of source line 32 stays within the fraction `2 ^ (-48)` of the
exact quotient of the specification. -/
theorem calibration_f64_near (rshunt : Rat) (ma scale : Int) (hr : 0 < rshunt) (hma : 0 < ma)
    (hs : 0 < scale) :
    |calibration_f64 rshunt ma scale - calibration_quotient_spec rshunt ma scale| ≤
      1 / 2 ^ 48 * calibration_quotient_spec rshunt ma scale := by
  have hma' : (0 : Rat) < ma := by exact_mod_cast hma
  have hs' : (0 : Rat) < scale := by exact_mod_cast hs
  set X : Rat := (ma : Rat) * scale / 32768000 with hX
  have hXpos : 0 < X := by positivity
  set P : Rat := X * rshunt with hP
  have hPpos : 0 < P := by positivity
  have hq : calibration_quotient_spec rshunt ma scale = (4096 / 100000 : Rat) / P := by
    unfold calibration_quotient_spec
    congr 1
    rw [hP, hX]
    ring
  -- the product `scaled_lsb * rshunt`
  have hp := near_rn _ _ _ (by norm_num) (near_mul _ _ _ rshunt (scaled_lsb_near ma scale))
  rw [← hX, ← hP, abs_of_pos hPpos] at hp
  have hp' := abs_le.mp hp
  set p : Rat := rn (scaled_lsb ma scale * rshunt) with hpdef
  have hp1 : P * (1 - 1 / 2 ^ 50) ≤ p := by linarith [hp'.1]
  have hp2 : p ≤ P * (1 + 1 / 2 ^ 50) := by linarith [hp'.2]
  have hppos : 0 < p := lt_of_lt_of_le (by positivity) hp1
  -- the literal
  have hc : |lit_0_04096 - (4096 / 100000 : Rat)| ≤ (0 + 1 / 2 ^ 52) * |(4096 / 100000 : Rat)| :=
    near_rn 0 _ _ (by norm_num) (by simp)
  have hc' := abs_le.mp hc
  rw [abs_of_pos (by norm_num : (0 : Rat) < 4096 / 100000)] at hc'
  have hc1 : (4096 / 100000 : Rat) * (1 - 1 / 2 ^ 52) ≤ lit_0_04096 := by linarith [hc'.1]
  have hc2 : lit_0_04096 ≤ (4096 / 100000 : Rat) * (1 + 1 / 2 ^ 52) := by linarith [hc'.2]
  have hcpos : 0 < lit_0_04096 := lt_of_lt_of_le (by norm_num) hc1
  -- the quotient before its rounding
  have hv0pos : 0 < lit_0_04096 / p := div_pos hcpos hppos
  have hv0hi : lit_0_04096 / p ≤
      (4096 / 100000 : Rat) / P * ((1 + 1 / 2 ^ 52) / (1 - 1 / 2 ^ 50)) := by
    have h1 : lit_0_04096 / p ≤
        ((4096 / 100000 : Rat) * (1 + 1 / 2 ^ 52)) / (P * (1 - 1 / 2 ^ 50)) :=
      div_le_div₀ (by norm_num) hc2 (by positivity) hp1
    have h2 : ((4096 / 100000 : Rat) * (1 + 1 / 2 ^ 52)) / (P * (1 - 1 / 2 ^ 50)) =
        (4096 / 100000 : Rat) / P * ((1 + 1 / 2 ^ 52) / (1 - 1 / 2 ^ 50)) := by
      field_simp
      ring
    rw [h2] at h1
    exact h1
  have hv0lo : (4096 / 100000 : Rat) / P * ((1 - 1 / 2 ^ 52) / (1 + 1 / 2 ^ 50)) ≤
      lit_0_04096 / p := by
    have h1 : ((4096 / 100000 : Rat) * (1 - 1 / 2 ^ 52)) / (P * (1 + 1 / 2 ^ 50)) ≤
        lit_0_04096 / p :=
      div_le_div₀ hcpos.le hc1 hppos hp2
    have h2 : ((4096 / 100000 : Rat) * (1 - 1 / 2 ^ 52)) / (P * (1 + 1 / 2 ^ 50)) =
        (4096 / 100000 : Rat) / P * ((1 - 1 / 2 ^ 52) / (1 + 1 / 2 ^ 50)) := by
      field_simp
      ring
    rw [h2] at h1
    exact h1
  -- the rounding of the quotient
  have hv := rn_err (lit_0_04096 / p)
  rw [abs_of_pos hv0pos] at hv
  have hv' := abs_le.mp hv
  have hqpos : 0 < (4096 / 100000 : Rat) / P := by positivity
  have e1 : calibration_f64 rshunt ma scale = rn (lit_0_04096 / p) := rfl
  rw [e1, hq, abs_le]
  set Q : Rat := (4096 / 100000 : Rat) / P with hQ
  set v0 : Rat := lit_0_04096 / p with hv0
  have n1 : ((1 + 1 / 2 ^ 52) / (1 - 1 / 2 ^ 50) : Rat) * (1 + 1 / 2 ^ 53) ≤ 1 + 1 / 2 ^ 48 := by
    norm_num
  have n2 : (1 - 1 / 2 ^ 48 : Rat) ≤ ((1 - 1 / 2 ^ 52) / (1 + 1 / 2 ^ 50)) * (1 - 1 / 2 ^ 53) := by
    norm_num
  constructor
  · have : Q * (1 - 1 / 2 ^ 48) ≤ v0 * (1 - 1 / 2 ^ 53) := by
      calc Q * (1 - 1 / 2 ^ 48) ≤ Q * (((1 - 1 / 2 ^ 52) / (1 + 1 / 2 ^ 50)) * (1 - 1 / 2 ^ 53)) :=
            mul_le_mul_of_nonneg_left n2 hqpos.le
        _ = (Q * ((1 - 1 / 2 ^ 52) / (1 + 1 / 2 ^ 50))) * (1 - 1 / 2 ^ 53) := by ring
        _ ≤ v0 * (1 - 1 / 2 ^ 53) := mul_le_mul_of_nonneg_right hv0lo (by norm_num)
    linarith [hv'.1]
  · have : v0 * (1 + 1 / 2 ^ 53) ≤ Q * (1 + 1 / 2 ^ 48) := by
      calc v0 * (1 + 1 / 2 ^ 53) ≤ (Q * ((1 + 1 / 2 ^ 52) / (1 - 1 / 2 ^ 50))) * (1 + 1 / 2 ^ 53) :=
            mul_le_mul_of_nonneg_right hv0hi (by norm_num)
        _ = Q * (((1 + 1 / 2 ^ 52) / (1 - 1 / 2 ^ 50)) * (1 + 1 / 2 ^ 53)) := by ring
        _ ≤ Q * (1 + 1 / 2 ^ 48) := mul_le_mul_of_nonneg_left n1 hqpos.le
    linarith [hv'.2]

/-! ## projections of a trial, of a block and of the sweep -/

theorem trial_marks {σ : Type} (D : Driver σ) (bits : ConfigBits) (rshunt : Rat)
    (ma : Int) (w : World σ) (scale : Int) :
    ∃ new, (trial D bits rshunt ma w scale).trace = w.trace ++ new ∧
      new.filterMap Event.mark? = [Mark.point ma scale] := by
  by_cases h : 65535 < calibration rshunt ma scale
  · exact ⟨_, by rw [trial_skipped D bits rshunt ma scale w h, log_trace], by simp [Event.mark?]⟩
  · obtain ⟨b1, c1, s1, b2, c2, s2, b3, c3, s3, ht⟩ := trial_programmed D bits rshunt ma scale w h
    exact ⟨_, ht, by simp [Event.mark?]⟩

theorem trial_tags {σ : Type} (D : Driver σ) (bits : ConfigBits) (rshunt : Rat)
    (ma : Int) (w : World σ) (scale : Int) :
    ∃ new, (trial D bits rshunt ma w scale).trace = w.trace ++ new ∧
      new.filterMap Event.tag? =
        if 65535 < calibration rshunt ma scale then [Tag.skip ma scale]
        else [Tag.program (calibration rshunt ma scale), Tag.data 1 ma scale,
          Tag.data 2 ma scale, Tag.data 3 ma scale] := by
  by_cases h : 65535 < calibration rshunt ma scale
  · exact ⟨_, by rw [trial_skipped D bits rshunt ma scale w h, log_trace],
      by simp [Event.tag?, h]⟩
  · obtain ⟨b1, c1, s1, b2, c2, s2, b3, c3, s3, ht⟩ := trial_programmed D bits rshunt ma scale w h
    exact ⟨_, ht, by simp [Event.tag?, h]⟩

theorem trial_headerValues {σ : Type} (D : Driver σ) (bits : ConfigBits) (rshunt : Rat)
    (ma : Int) (w : World σ) (scale : Int) :
    ∃ new, (trial D bits rshunt ma w scale).trace = w.trace ++ new ∧
      new.filterMap Event.headerValue? = [] := by
  by_cases h : 65535 < calibration rshunt ma scale
  · exact ⟨_, by rw [trial_skipped D bits rshunt ma scale w h, log_trace],
      by simp [Event.headerValue?]⟩
  · obtain ⟨b1, c1, s1, b2, c2, s2, b3, c3, s3, ht⟩ := trial_programmed D bits rshunt ma scale w h
    exact ⟨_, ht, by simp [Event.headerValue?]⟩

/-- The projection of a returning sweep, from the projection of its blocks. -/
theorem sweep_filterMap {σ β : Type} (D : Driver σ) (bits : ConfigBits) (rshunt : Rat)
    (p : Event → Option β) (g : Int → List β)
    (hb : ∀ w ma, ∃ new, (block D bits rshunt w ma).trace = w.trace ++ new ∧
      new.filterMap p = g ma)
    (imin imax istep : Int) (fuel : Nat) (w : World σ)
    (hstep : 0 < istep) (hmin : -2147483648 ≤ imin) (hmax : imax + istep ≤ 2147483647)
    (hfuel : tripCount imin imax istep < fuel) :
    ∃ w' new, calculate_and_configure_calibration D bits rshunt imin imax istep fuel w =
        Outcome.returned w' ∧ w'.trace = w.trace ++ new ∧
      new.filterMap p = (visited imin imax istep).flatMap g := by
  obtain ⟨new, h1, h2⟩ := foldl_filterMap (block D bits rshunt) p g hb (visited imin imax istep) w
  exact ⟨_, new, sweepLoop_returns D bits rshunt imax istep hstep hmax fuel imin w hmin hfuel,
    h1, h2⟩

theorem tripCount_bounds (imin imax istep : Int) (hstep : 0 < istep) (hle : imin ≤ imax) :
    1 ≤ tripCount imin imax istep ∧
    imin + ((tripCount imin imax istep : Int) - 1) * istep ≤ imax ∧
    imax < imin + (tripCount imin imax istep : Int) * istep := by
  have h0 : 0 ≤ (imax - imin) / istep := Int.ediv_nonneg (by omega) (by omega)
  have h1 : ((tripCount imin imax istep : Nat) : Int) = (imax - imin) / istep + 1 := by
    unfold tripCount
    omega
  have h2 := Int.ediv_mul_le (imax - imin) (show istep ≠ 0 by omega)
  have h3 := Int.lt_ediv_add_one_mul_self (imax - imin) hstep
  refine ⟨by omega, ?_, ?_⟩
  · rw [h1]
    have : imin + ((imax - imin) / istep + 1 - 1) * istep = imin + (imax - imin) / istep * istep := by
      ring
    omega
  · rw [h1]
    omega

theorem visited_pairwise (imin imax istep : Int) (hstep : 0 < istep) :
    (visited imin imax istep).Pairwise (fun a b => a < b) := by
  unfold visited
  apply List.Pairwise.map _ _ (List.pairwise_lt_range _)
  intro a b hab
  have : (a : Int) < (b : Int) := by exact_mod_cast hab
  nlinarith

theorem visited_mem_max (imin imax istep : Int) (hstep : 0 < istep) (hle : imin ≤ imax)
    (hdvd : istep ∣ imax - imin) : imax ∈ visited imin imax istep := by
  unfold visited
  rw [List.mem_map]
  have h0 : 0 ≤ (imax - imin) / istep := Int.ediv_nonneg (by omega) (by omega)
  refine ⟨((imax - imin) / istep).toNat, ?_, ?_⟩
  · rw [List.mem_range]
    unfold tripCount
    omega
  · rw [Int.toNat_of_nonneg h0, Int.ediv_mul_cancel hdvd]
    ring

theorem trial_calibrationWrites {σ : Type} (D : Driver σ) (bits : ConfigBits) (rshunt : Rat)
    (ma : Int) (w : World σ) (scale : Int) :
    ∃ new, (trial D bits rshunt ma w scale).trace = w.trace ++ new ∧
      calibrationWrites new = [calibration rshunt ma scale] ∧
      (records new).all (fun r => !r.isSkip) = true := by
  have h : ¬ 65535 < calibration rshunt ma scale := by
    have := calibration_le rshunt ma scale
    omega
  obtain ⟨b1, c1, s1, b2, c2, s2, b3, c3, s3, ht⟩ := trial_programmed D bits rshunt ma scale w h
  exact ⟨_, ht, by simp [calibrationWrites, Event.calibrationWrite?],
    by simp [records, Event.record?, Record.isSkip]⟩

/-! ## C1 -/

/-- C1 (defect of the code): at `rshunt = 0.1`, `max_current_ma = 100`, `scale = 1` the
full-precision calibration value is 134217, above 65535, yet the trial prints no `SKIP`
line: the conversion to `uint16_t` has already reduced the value to 3145, and the device is
reset, programmed with 3145 and read.  The same happens at the boundary value 65536
(`rshunt = 335544 / 2 ^ 20`, `max_current_ma = 64`, `scale = 1`), where 0 is written. -/
theorem C1_overflow_is_programmed_not_skipped :
    calibration_raw_spec main_rshunt 100 1 = 134217 ∧
    Rat.floor (calibration_f64 main_rshunt 100 1) = 134217 ∧
    devOps (trial simDriver stdBits main_rshunt 100 simWorld 1).trace =
      [DevOp.reset, DevOp.delay 1, DevOp.setCalibration 3145, DevOp.setConfig 14751,
       DevOp.delay 1,
       DevOp.readBusVoltage 12000, DevOp.readCurrent (-1), DevOp.readShuntVolage 2,
       DevOp.readBusVoltage 12003, DevOp.readCurrent (-4), DevOp.readShuntVolage 5,
       DevOp.readBusVoltage 12006, DevOp.readCurrent (-7), DevOp.readShuntVolage 8] ∧
    (records (trial simDriver stdBits main_rshunt 100 simWorld 1).trace).filter Record.isSkip
      = [] ∧
    (records (calculate_and_configure_calibration simDriver stdBits main_rshunt 100 100 5 2
      simWorld).world.trace).filter Record.isSkip = [] ∧
    calibration_raw_spec (335544 / 1048576) 64 1 = 65536 ∧
    Rat.floor (calibration_f64 (335544 / 1048576) 64 1) = 65536 ∧
    calibrationWrites (trial simDriver stdBits (335544 / 1048576) 64 simWorld 1).trace = [0] ∧
    (records (trial simDriver stdBits (335544 / 1048576) 64 simWorld 1).trace).filter
      Record.isSkip = [] := by
  decide!

/-! ## C2 -/

/-- C2, counterexample: for `rshunt = 5902958103587057 / 2 ^ 43` (the binary64 value that
the literal `671.08864` denotes), `max_current_ma = 1000` and `scale = 1` the exact
quotient is below 2, so the formula of the claim gives 1, within range; the binary64
evaluation of the source gives exactly 2.0 and 2 is written to the calibration register. -/
theorem C2_exact_floor_counterexample :
    rn (67108864 / 100000) = 5902958103587057 / 8796093022208 ∧
    (0 : Rat) < 5902958103587057 / 8796093022208 ∧
    calibration_raw_spec (5902958103587057 / 8796093022208) 1000 1 = 1 ∧
    Rat.floor ((134217728 / 100 : Rat) / (1000 * 1 * (5902958103587057 / 8796093022208))) = 1 ∧
    calibration_f64 (5902958103587057 / 8796093022208) 1000 1 = 2 ∧
    calibrationWrites
      (trial simDriver stdBits (5902958103587057 / 8796093022208) 1000 simWorld 1).trace = [2] := by
  decide!

/-- C2, as amended: for `rshunt > 0`, `max_current_ma > 0` and `scale ≥ 1`, when the exact
quotient `1342177.28 / (max_current_ma * scale * rshunt)` has a floor of at most 65535 and
lies at least `10 ^ (-9)` away from the integers on both sides, the one value written to the
calibration register in the trial is the floor of that exact quotient, which is also the
floor of the formula of the specification; for `rshunt = 0.1`, `max_current_ma = 205`,
`scale = 8` the value is 8184. -/
theorem C2_calibration_value {σ : Type} (D : Driver σ) (bits : ConfigBits) (rshunt : Rat)
    (ma scale : Int) (w : World σ)
    (hr : 0 < rshunt) (hma : 0 < ma) (hs : 1 ≤ scale)
    (hraw : calibration_raw_spec rshunt ma scale ≤ 65535)
    (hlo : (calibration_raw_spec rshunt ma scale : Rat) + 1 / 10 ^ 9 ≤
      calibration_quotient_spec rshunt ma scale)
    (hhi : calibration_quotient_spec rshunt ma scale + 1 / 10 ^ 9 ≤
      (calibration_raw_spec rshunt ma scale : Rat) + 1) :
    calibration_raw_spec rshunt ma scale =
      Rat.floor ((134217728 / 100 : Rat) / ((ma : Rat) * scale * rshunt)) ∧
    (∃ new, (trial D bits rshunt ma w scale).trace = w.trace ++ new ∧
      calibrationWrites new = [(calibration_raw_spec rshunt ma scale).toNat]) ∧
    calibration main_rshunt 205 8 = 8184 := by
  refine ⟨by rw [calibration_raw_spec, calibration_quotient_spec_eq], ?_, by decide!⟩
  have hnear := calibration_f64_near rshunt ma scale hr hma (by omega)
  set q := calibration_quotient_spec rshunt ma scale with hq
  set n := calibration_raw_spec rshunt ma scale with hn
  have hqpos : 0 < q := by
    have hma' : (0 : Rat) < ma := by exact_mod_cast hma
    have hs' : (0 : Rat) < scale := by exact_mod_cast (show (0 : Int) < scale by omega)
    rw [hq, calibration_quotient_spec]
    positivity
  have hn0 : 0 ≤ n := by
    have : (0 : Int) ≤ Rat.floor q := Rat.le_floor.mpr (by exact_mod_cast hqpos.le)
    exact this
  have hq65 : q < 65536 := by
    have hn' : (n : Rat) ≤ 65535 := by exact_mod_cast hraw
    linarith [show (0 : Rat) < 1 / 10 ^ 9 by norm_num]
  have hd := abs_le.mp hnear
  have hsmall : 1 / 2 ^ 48 * q < 1 / 10 ^ 9 := by
    have : (1 / 2 ^ 48 : Rat) * q < 1 / 2 ^ 48 * 65536 :=
      mul_lt_mul_of_pos_left hq65 (by norm_num)
    have h2 : (1 / 2 ^ 48 : Rat) * 65536 < 1 / 10 ^ 9 := by norm_num
    linarith
  have hcal : calibration rshunt ma scale = n.toNat := by
    unfold calibration
    apply toUint16_of_floor _ n hn0 hraw
    · linarith [hd.1]
    · linarith [hd.2]
  obtain ⟨new, h1, h2, -⟩ := trial_calibrationWrites D bits rshunt ma w scale
  exact ⟨new, h1, by rw [h2, hcal]⟩

/-- C2, witness: the trial point `rshunt = 0.1`, `max_current_ma = 205`, `scale = 8`. -/
theorem C2_calibration_value_witness :
    (0 : Rat) < main_rshunt ∧ (0 : Int) < 205 ∧ (1 : Int) ≤ 8 ∧
    calibration_raw_spec main_rshunt 205 8 ≤ 65535 ∧
    (calibration_raw_spec main_rshunt 205 8 : Rat) + 1 / 10 ^ 9 ≤
      calibration_quotient_spec main_rshunt 205 8 ∧
    calibration_quotient_spec main_rshunt 205 8 + 1 / 10 ^ 9 ≤
      (calibration_raw_spec main_rshunt 205 8 : Rat) + 1 ∧
    calibration_raw_spec main_rshunt 205 8 = 8184 ∧
    (∃ new, (trial simDriver stdBits main_rshunt 205 simWorld 8).trace = simWorld.trace ++ new ∧
      calibrationWrites new = [(calibration_raw_spec main_rshunt 205 8).toNat]) :=
  ⟨by decide!, by decide, by decide, by decide!, by decide!, by decide!, by decide!,
    (C2_calibration_value simDriver stdBits main_rshunt 205 8 simWorld (by decide!) (by decide)
      (by decide) (by decide!) (by decide!) (by decide!)).2.1⟩

/-! ## C3 -/

/-- C3, counterexample: for `rshunt = 0.1`, `max_current_ma = 205`, `scale = 1` the
calibration value is 65472, in exact arithmetic and in binary64 alike, and 65472 is what
the trial writes to the calibration register; it is not 65474. -/
theorem C3_value_is_65472_not_65474 :
    calibration_raw_spec (1 / 10) 205 1 = 65472 ∧
    calibration_raw_spec main_rshunt 205 1 = 65472 ∧
    Rat.floor (calibration_f64 main_rshunt 205 1) = 65472 ∧
    calibration main_rshunt 205 1 ≠ 65474 ∧
    calibrationWrites (trial simDriver stdBits main_rshunt 205 simWorld 1).trace ≠ [65474] := by
  decide!

/-- C3, as amended: for `rshunt = 0.1`, `max_current_ma = 205`, `scale = 1` the sweep
computes `max_current_a` as the binary64 value of `0.205`, `current_lsb` as that value
divided by 32768, and the calibration value 65472; the overflow test fails, no `SKIP` line
is printed and the one value written to the calibration register in that trial is 65472. -/
theorem C3_scenario_205_scale_1 {σ : Type} (D : Driver σ) (bits : ConfigBits) (w : World σ) :
    max_current_a 205 = rn (205 / 1000) ∧
    current_lsb 205 = max_current_a 205 / 32768 ∧
    Rat.floor (calibration_f64 main_rshunt 205 1) = 65472 ∧
    calibration main_rshunt 205 1 = 65472 ∧
    ¬ 65535 < calibration main_rshunt 205 1 ∧
    ∃ new, (trial D bits main_rshunt 205 w 1).trace = w.trace ++ new ∧
      calibrationWrites new = [65472] ∧
      (records new).all (fun r => !r.isSkip) = true := by
  have hc : calibration main_rshunt 205 1 = 65472 := by decide!
  refine ⟨by decide!, by decide!, by decide!, hc, by rw [hc]; decide, ?_⟩
  obtain ⟨new, h1, h2, h3⟩ := trial_calibrationWrites D bits main_rshunt 205 w 1
  exact ⟨new, h1, by rw [h2, hc], h3⟩

/-! ## C8 -/

/-- C8, counterexample: at `max_current_ma = 205` the quotient `max_current_a` is not the
rational `205 / 1000`, and `scaled_lsb` is not `205 * scale / 32768000` for `scale = 1` nor
for `scale = 7`; for `scale = 7` it is not even the binary64 value nearest to it. -/
theorem C8_scaled_lsb_is_rounded :
    max_current_a 205 ≠ 205 / 1000 ∧
    scaled_lsb 205 1 ≠ (205 : Rat) * 1 / 32768000 ∧
    scaled_lsb 205 7 ≠ (205 : Rat) * 7 / 32768000 ∧
    scaled_lsb 205 7 ≠ rn ((205 : Rat) * 7 / 32768000) := by
  decide!

/-- C8, as amended: the relationships hold between binary64 values, each operation rounding
its exact result to the nearest one: `max_current_a = rn (max_current_ma / 1000)`,
`current_lsb = rn (max_current_a / 32768)`, `scaled_lsb = rn (current_lsb * scale)`; the
result differs from `max_current_ma * scale / 32768000` by at most the fraction
`3 / 2 ^ 52` of it; and this one value `scaled_lsb` is both the one used in the calibration
computation and the one printed in the `DATA` line. -/
theorem C8_scaled_lsb_relationship {σ : Type} (D : Driver σ) (rshunt : Rat) (ma scale i : Int)
    (w : World σ) :
    max_current_a ma = rn ((ma : Rat) / 1000) ∧
    current_lsb ma = rn (max_current_a ma / 32768) ∧
    scaled_lsb ma scale = rn (current_lsb ma * (scale : Rat)) ∧
    |scaled_lsb ma scale - (ma : Rat) * scale / 32768000| ≤
      3 / 2 ^ 52 * |(ma : Rat) * scale / 32768000| ∧
    calibration rshunt ma scale =
      toUint16 (rn (lit_0_04096 / rn (scaled_lsb ma scale * rshunt))) ∧
    ∃ b c s, records (newEvents w.trace.length (sample D rshunt ma scale w i).trace) =
      [Record.data i ma (max_current_a ma) (scaled_lsb ma scale) scale
        (calibration rshunt ma scale) (calibration rshunt ma scale) b c s] := by
  refine ⟨rfl, rfl, rfl, scaled_lsb_near ma scale, rfl, ?_⟩
  simp only [sample, World.log, List.append_assoc, List.singleton_append, List.cons_append,
    List.nil_append, newEvents, List.drop_left]
  exact ⟨_, _, _, rfl⟩

/-! ## C4 -/

theorem block_headerValues {σ : Type} (D : Driver σ) (bits : ConfigBits) (rshunt : Rat)
    (w : World σ) (ma : Int) :
    ∃ new, (block D bits rshunt w ma).trace = w.trace ++ new ∧
      new.filterMap Event.headerValue? = [ma] := by
  obtain ⟨new, h1, h2⟩ := block_filterMap D bits rshunt Event.headerValue? (fun _ _ => [])
    (fun ma w s => trial_headerValues D bits rshunt ma w s) w ma
  exact ⟨new, h1, by rw [h2]; rfl⟩

theorem block_marks {σ : Type} (D : Driver σ) (bits : ConfigBits) (rshunt : Rat)
    (w : World σ) (ma : Int) :
    ∃ new, (block D bits rshunt w ma).trace = w.trace ++ new ∧
      new.filterMap Event.mark? =
        Mark.block ma :: [1, 2, 3, 4, 5, 6, 7, 8].map (Mark.point ma) := by
  obtain ⟨new, h1, h2⟩ := block_filterMap D bits rshunt Event.mark?
    (fun ma s => [Mark.point ma s]) (fun ma w s => trial_marks D bits rshunt ma w s) w ma
  exact ⟨new, h1, by rw [h2]; rfl⟩

theorem flatMap_singleton_id (l : List Int) : l.flatMap (fun ma => [ma]) = l := by
  induction l with
  | nil => rfl
  | cons a l ih => rw [List.flatMap_cons, ih]; rfl

/-- C4: with a positive step, `imin ≤ imax` and no overflow of `int`, the sweep returns and
its section headers carry exactly `imin, imin + istep, imin + 2 * istep, ...` up to the
largest such value not above `imax`, each once and in ascending order (`imax` itself when
the step divides `imax - imin`); each header is followed by the trial points of its block,
`scale = 1, 2, ..., 8`, each once and in ascending order, before the next header. -/
theorem C4_sweep_order {σ : Type} (D : Driver σ) (bits : ConfigBits) (rshunt : Rat)
    (imin imax istep : Int) (fuel : Nat) (w : World σ)
    (hstep : 0 < istep) (hle : imin ≤ imax) (hmin : -2147483648 ≤ imin)
    (hmax : imax + istep ≤ 2147483647) (hfuel : tripCount imin imax istep < fuel) :
    ∃ w' new,
      calculate_and_configure_calibration D bits rshunt imin imax istep fuel w =
        Outcome.returned w' ∧
      w'.trace = w.trace ++ new ∧
      headerValues new =
        (List.range (tripCount imin imax istep)).map (fun (k : Nat) => imin + (k : Int) * istep) ∧
      1 ≤ tripCount imin imax istep ∧
      imin + ((tripCount imin imax istep : Int) - 1) * istep ≤ imax ∧
      imax < imin + (tripCount imin imax istep : Int) * istep ∧
      (headerValues new).Pairwise (fun a b => a < b) ∧
      (istep ∣ imax - imin → imax ∈ headerValues new) ∧
      marks new = (headerValues new).flatMap
        (fun ma => Mark.block ma :: [1, 2, 3, 4, 5, 6, 7, 8].map (Mark.point ma)) := by
  have hret := sweepLoop_returns D bits rshunt imax istep hstep hmax fuel imin w hmin hfuel
  obtain ⟨n1, a1, a2⟩ := foldl_filterMap (block D bits rshunt) Event.headerValue?
    (fun ma => [ma]) (block_headerValues D bits rshunt) (visited imin imax istep) w
  obtain ⟨n2, b1, b2⟩ := foldl_filterMap (block D bits rshunt) Event.mark?
    (fun ma => Mark.block ma :: [1, 2, 3, 4, 5, 6, 7, 8].map (Mark.point ma))
    (block_marks D bits rshunt) (visited imin imax istep) w
  have e : n2 = n1 := List.append_cancel_left (b1.symm.trans a1)
  subst e
  have hv : headerValues n2 = visited imin imax istep := by
    rw [headerValues, a2, flatMap_singleton_id]
  obtain ⟨t1, t2, t3⟩ := tripCount_bounds imin imax istep hstep hle
  refine ⟨_, n2, hret, a1, hv, t1, t2, t3, ?_, ?_, ?_⟩
  · rw [hv]; exact visited_pairwise imin imax istep hstep
  · intro hd; rw [hv]; exact visited_mem_max imin imax istep hstep hle hd
  · rw [hv]; exact b2

/-- C4, witness: the sweep from 205 mA to 215 mA in steps of 5 mA on the simulated device
visits 205, 210, 215. -/
theorem C4_sweep_order_witness :
    (0 : Int) < 5 ∧ (205 : Int) ≤ 215 ∧ (-2147483648 : Int) ≤ 205 ∧
    (215 : Int) + 5 ≤ 2147483647 ∧ tripCount 205 215 5 < 4 ∧
    headerValues (calculate_and_configure_calibration simDriver stdBits main_rshunt 205 215 5 4
      simWorld).world.trace = [205, 210, 215] ∧
    ∃ w' new,
      calculate_and_configure_calibration simDriver stdBits main_rshunt 205 215 5 4 simWorld =
        Outcome.returned w' ∧
      w'.trace = simWorld.trace ++ new ∧
      headerValues new =
        (List.range (tripCount 205 215 5)).map (fun (k : Nat) => (205 : Int) + (k : Int) * 5) ∧
      1 ≤ tripCount 205 215 5 ∧
      (205 : Int) + ((tripCount 205 215 5 : Int) - 1) * 5 ≤ 215 ∧
      (215 : Int) < 205 + (tripCount 205 215 5 : Int) * 5 ∧
      (headerValues new).Pairwise (fun a b => a < b) ∧
      ((5 : Int) ∣ 215 - 205 → (215 : Int) ∈ headerValues new) ∧
      marks new = (headerValues new).flatMap
        (fun ma => Mark.block ma :: [1, 2, 3, 4, 5, 6, 7, 8].map (Mark.point ma)) :=
  ⟨by decide, by decide, by decide, by decide, by decide, by decide!,
    C4_sweep_order simDriver stdBits main_rshunt 205 215 5 4 simWorld (by decide) (by decide)
      (by decide) (by decide) (by decide)⟩

/-! ## C6 -/

theorem block_tags {σ : Type} (D : Driver σ) (bits : ConfigBits) (rshunt : Rat)
    (w : World σ) (ma : Int) :
    ∃ new, (block D bits rshunt w ma).trace = w.trace ++ new ∧
      new.filterMap Event.tag? =
        Tag.header ma :: ([1, 2, 3, 4, 5, 6, 7, 8].flatMap (fun scale =>
          if 65535 < calibration rshunt ma scale then [Tag.skip ma scale]
          else [Tag.program (calibration rshunt ma scale), Tag.data 1 ma scale,
            Tag.data 2 ma scale, Tag.data 3 ma scale]) ++ [Tag.footer ma]) := by
  obtain ⟨new, h1, h2⟩ := block_filterMap D bits rshunt Event.tag?
    (fun ma scale =>
      if 65535 < calibration rshunt ma scale then [Tag.skip ma scale]
      else [Tag.program (calibration rshunt ma scale), Tag.data 1 ma scale,
        Tag.data 2 ma scale, Tag.data 3 ma scale])
    (fun ma w s => trial_tags D bits rshunt ma w s) w ma
  exact ⟨new, h1, by rw [h2]; rfl⟩

/-- C6: with a positive step and no overflow of `int`, the sweep returns as soon as the
iteration budget exceeds the trip count, and it has processed every trial point: for each
visited `max_current_ma`, in order, a header, then for each `scale` from 1 to 8 either one
`SKIP` line or one calibration write followed by the `DATA` lines 1, 2, 3, then the footer;
whatever a trial point did, the following ones are still processed. -/
theorem C6_terminates_and_completes {σ : Type} (D : Driver σ) (bits : ConfigBits)
    (rshunt : Rat) (imin imax istep : Int) (fuel : Nat) (w : World σ)
    (hstep : 0 < istep) (hmin : -2147483648 ≤ imin) (hmax : imax + istep ≤ 2147483647)
    (hfuel : tripCount imin imax istep < fuel) :
    ∃ w' new,
      calculate_and_configure_calibration D bits rshunt imin imax istep fuel w =
        Outcome.returned w' ∧
      w'.trace = w.trace ++ new ∧
      tags new =
        ((List.range (tripCount imin imax istep)).map
          (fun (k : Nat) => imin + (k : Int) * istep)).flatMap (fun ma =>
            Tag.header ma :: ([1, 2, 3, 4, 5, 6, 7, 8].flatMap (fun scale =>
              if 65535 < calibration rshunt ma scale then [Tag.skip ma scale]
              else [Tag.program (calibration rshunt ma scale), Tag.data 1 ma scale,
                Tag.data 2 ma scale, Tag.data 3 ma scale]) ++ [Tag.footer ma])) :=
  sweep_filterMap D bits rshunt Event.tag? _ (block_tags D bits rshunt) imin imax istep fuel w
    hstep hmin hmax hfuel

/-- C6, witness: the sweep from 205 mA to 210 mA in steps of 5 mA on the simulated device
returns within three iterations. -/
theorem C6_terminates_and_completes_witness :
    (0 : Int) < 5 ∧ (-2147483648 : Int) ≤ 205 ∧ (210 : Int) + 5 ≤ 2147483647 ∧
    tripCount 205 210 5 < 3 ∧
    (tags (calculate_and_configure_calibration simDriver stdBits main_rshunt 205 210 5 3
      simWorld).world.trace).length = 68 ∧
    ∃ w' new,
      calculate_and_configure_calibration simDriver stdBits main_rshunt 205 210 5 3 simWorld =
        Outcome.returned w' ∧
      w'.trace = simWorld.trace ++ new ∧
      tags new =
        ((List.range (tripCount 205 210 5)).map
          (fun (k : Nat) => (205 : Int) + (k : Int) * 5)).flatMap (fun ma =>
            Tag.header ma :: ([1, 2, 3, 4, 5, 6, 7, 8].flatMap (fun scale =>
              if 65535 < calibration main_rshunt ma scale then [Tag.skip ma scale]
              else [Tag.program (calibration main_rshunt ma scale), Tag.data 1 ma scale,
                Tag.data 2 ma scale, Tag.data 3 ma scale]) ++ [Tag.footer ma])) :=
  ⟨by decide, by decide, by decide, by decide, by decide!,
    C6_terminates_and_completes simDriver stdBits main_rshunt 205 210 5 3 simWorld (by decide)
      (by decide) (by decide) (by decide)⟩

/-! ## block structure of the printed lines -/

/-- A fold of steps, each extending the trace by events with a property that is closed
under concatenation, extends the trace by events with that property. -/
theorem foldl_extends {σ α : Type} (F : World σ → α → World σ) (Q : List Event → Prop)
    (hnil : Q []) (happ : ∀ a b, Q a → Q b → Q (a ++ b))
    (h : ∀ w x, ∃ new, (F w x).trace = w.trace ++ new ∧ Q new) :
    ∀ (xs : List α) (w : World σ), ∃ new, (xs.foldl F w).trace = w.trace ++ new ∧ Q new := by
  intro xs
  induction xs with
  | nil => intro w; exact ⟨[], by simp, hnil⟩
  | cons x xs ih =>
    intro w
    obtain ⟨n1, h1, h2⟩ := h w x
    obtain ⟨n2, h3, h4⟩ := ih (F w x)
    exact ⟨n1 ++ n2, by rw [List.foldl_cons, h3, h1, List.append_assoc], happ _ _ h2 h4⟩

theorem trial_lines {σ : Type} (D : Driver σ) (bits : ConfigBits) (rshunt : Rat)
    (ma : Int) (w : World σ) (scale : Int) :
    ∃ new, (trial D bits rshunt ma w scale).trace = w.trace ++ new ∧
      ∀ r ∈ records new, r.isTrialLineOf ma = true := by
  by_cases h : 65535 < calibration rshunt ma scale
  · exact ⟨_, by rw [trial_skipped D bits rshunt ma scale w h, log_trace],
      by simp [records, Event.record?, Record.isTrialLineOf]⟩
  · obtain ⟨b1, c1, s1, b2, c2, s2, b3, c3, s3, ht⟩ := trial_programmed D bits rshunt ma scale w h
    exact ⟨_, ht, by simp [records, Event.record?, Record.isTrialLineOf]⟩

/-! ## C9 -/

theorem agree_id {σ₁ σ₂ : Type} : Agree (fun w : World σ₁ => w) (fun w : World σ₂ => w) :=
  ⟨0, fun _ _ => ⟨[], [], by simp, by simp, by simp [readValues], by simp [readValues],
    fun _ => rfl⟩⟩

theorem agree_print {σ₁ σ₂ : Type} (r : Record) :
    Agree (fun w : World σ₁ => w.log (Event.out r)) (fun w : World σ₂ => w.log (Event.out r)) :=
  ⟨0, fun _ _ => ⟨[Event.out r], [Event.out r], rfl, rfl,
    by simp [readValues, Event.readValue?], by simp [readValues, Event.readValue?],
    fun _ => rfl⟩⟩

theorem agree_comp {σ₁ σ₂ : Type} {f₁ g₁ : World σ₁ → World σ₁} {f₂ g₂ : World σ₂ → World σ₂}
    (hf : Agree f₁ f₂) (hg : Agree g₁ g₂) :
    Agree (fun w => g₁ (f₁ w)) (fun w => g₂ (f₂ w)) := by
  obtain ⟨L, hL⟩ := hf
  obtain ⟨M, hM⟩ := hg
  refine ⟨L + M, fun w₁ w₂ => ?_⟩
  obtain ⟨a₁, a₂, ha₁, ha₂, la₁, la₂, ea⟩ := hL w₁ w₂
  obtain ⟨b₁, b₂, hb₁, hb₂, lb₁, lb₂, eb⟩ := hM (f₁ w₁) (f₂ w₂)
  refine ⟨a₁ ++ b₁, a₂ ++ b₂, ?_, ?_, ?_, ?_, ?_⟩
  · rw [hb₁, ha₁, List.append_assoc]
  · rw [hb₂, ha₂, List.append_assoc]
  · rw [readValues, List.filterMap_append, List.length_append]
    exact congrArg₂ (· + ·) la₁ lb₁
  · rw [readValues, List.filterMap_append, List.length_append]
    exact congrArg₂ (· + ·) la₂ lb₂
  · intro h
    simp only [readValues, List.filterMap_append] at h
    obtain ⟨h₁, h₂⟩ := List.append_inj h (la₁.trans la₂.symm)
    rw [ea h₁, eb h₂]

theorem agree_foldl {σ₁ σ₂ α : Type} (F₁ : World σ₁ → α → World σ₁)
    (F₂ : World σ₂ → α → World σ₂)
    (h : ∀ x, Agree (fun w => F₁ w x) (fun w => F₂ w x)) :
    ∀ xs : List α, Agree (fun w => xs.foldl F₁ w) (fun w => xs.foldl F₂ w) := by
  intro xs
  induction xs with
  | nil => exact agree_id
  | cons x xs ih => exact agree_comp (h x) ih

theorem agree_trial {σ₁ σ₂ : Type} (D₁ : Driver σ₁) (D₂ : Driver σ₂) (bits : ConfigBits)
    (rshunt : Rat) (ma scale : Int) :
    Agree (fun w => trial D₁ bits rshunt ma w scale) (fun w => trial D₂ bits rshunt ma w scale) := by
  have h : ¬ 65535 < calibration rshunt ma scale := by
    have := calibration_le rshunt ma scale
    omega
  refine ⟨9, fun w₁ w₂ => ?_⟩
  obtain ⟨b1, c1, s1, b2, c2, s2, b3, c3, s3, ht⟩ := trial_programmed D₁ bits rshunt ma scale w₁ h
  obtain ⟨b1', c1', s1', b2', c2', s2', b3', c3', s3', ht'⟩ :=
    trial_programmed D₂ bits rshunt ma scale w₂ h
  refine ⟨_, _, ht, ht', by simp [readValues, Event.readValue?],
    by simp [readValues, Event.readValue?], ?_⟩
  intro heq
  simp only [readValues, List.filterMap_cons, Event.readValue?, List.filterMap_nil,
    List.cons.injEq, Nat.cast_inj, and_true] at heq
  obtain ⟨rfl, rfl, rfl, rfl, rfl, rfl, rfl, rfl, rfl⟩ := heq
  rfl

theorem agree_block {σ₁ σ₂ : Type} (D₁ : Driver σ₁) (D₂ : Driver σ₂) (bits : ConfigBits)
    (rshunt : Rat) (ma : Int) :
    Agree (fun w => block D₁ bits rshunt w ma) (fun w => block D₂ bits rshunt w ma) :=
  agree_comp (agree_comp (agree_print (Record.header ma (max_current_a ma)))
    (agree_foldl (trial D₁ bits rshunt ma) (trial D₂ bits rshunt ma)
      (fun s => agree_trial D₁ D₂ bits rshunt ma s) [1, 2, 3, 4, 5, 6, 7, 8]))
    (agree_print (Record.footer ma (max_current_a ma)))

theorem agree_sweepLoop {σ₁ σ₂ : Type} (D₁ : Driver σ₁) (D₂ : Driver σ₂) (bits : ConfigBits)
    (rshunt : Rat) (imax istep : Int) :
    ∀ (fuel : Nat) (ma : Int),
      Agree (fun w => (sweepLoop D₁ bits rshunt imax istep fuel ma w).world)
        (fun w => (sweepLoop D₂ bits rshunt imax istep fuel ma w).world) := by
  intro fuel
  induction fuel with
  | zero => intro ma; exact agree_id
  | succ fuel ih =>
    intro ma
    by_cases hle : ma ≤ imax
    · have := agree_comp (agree_block D₁ D₂ bits rshunt ma) (ih (wrapInt32 (ma + istep)))
      simpa only [sweepLoop, if_pos hle] using this
    · simpa only [sweepLoop, if_neg hle] using (agree_id : Agree (fun w : World σ₁ => w)
        (fun w : World σ₂ => w))

/-- C9: two runs with the same configuration and the same iteration budget, on any two
devices and from any two starting traces, whose device reads returned the same sequence of
values, added the same events to their traces; in particular the same printed lines and the
same device calls with the same arguments. -/
theorem C9_same_responses_same_trace {σ₁ σ₂ : Type} (D₁ : Driver σ₁) (D₂ : Driver σ₂)
    (bits : ConfigBits) (rshunt : Rat) (imin imax istep : Int) (fuel : Nat)
    (w₁ : World σ₁) (w₂ : World σ₂)
    (h : readValues (newEvents w₁.trace.length
          (calculate_and_configure_calibration D₁ bits rshunt imin imax istep fuel w₁).world.trace) =
        readValues (newEvents w₂.trace.length
          (calculate_and_configure_calibration D₂ bits rshunt imin imax istep fuel w₂).world.trace)) :
    newEvents w₁.trace.length
        (calculate_and_configure_calibration D₁ bits rshunt imin imax istep fuel w₁).world.trace =
      newEvents w₂.trace.length
        (calculate_and_configure_calibration D₂ bits rshunt imin imax istep fuel w₂).world.trace ∧
    records (newEvents w₁.trace.length
        (calculate_and_configure_calibration D₁ bits rshunt imin imax istep fuel w₁).world.trace) =
      records (newEvents w₂.trace.length
        (calculate_and_configure_calibration D₂ bits rshunt imin imax istep fuel w₂).world.trace) ∧
    devOps (newEvents w₁.trace.length
        (calculate_and_configure_calibration D₁ bits rshunt imin imax istep fuel w₁).world.trace) =
      devOps (newEvents w₂.trace.length
        (calculate_and_configure_calibration D₂ bits rshunt imin imax istep fuel w₂).world.trace) := by
  obtain ⟨L, hL⟩ := agree_sweepLoop D₁ D₂ bits rshunt imax istep fuel imin
  obtain ⟨n₁, n₂, e₁, e₂, -, -, himp⟩ := hL w₁ w₂
  have t₁ : newEvents w₁.trace.length
      (calculate_and_configure_calibration D₁ bits rshunt imin imax istep fuel w₁).world.trace
      = n₁ := by
    rw [newEvents, calculate_and_configure_calibration, e₁, List.drop_left]
  have t₂ : newEvents w₂.trace.length
      (calculate_and_configure_calibration D₂ bits rshunt imin imax istep fuel w₂).world.trace
      = n₂ := by
    rw [newEvents, calculate_and_configure_calibration, e₂, List.drop_left]
  rw [t₁, t₂] at h ⊢
  have e := himp h
  subst e
  exact ⟨rfl, rfl, rfl⟩

/-- C9, witness: the sweep at 205 mA on the two simulated devices, which differ in their
state but answer the reads alike. -/
theorem C9_same_responses_same_trace_witness :
    readValues (newEvents 0
        (calculate_and_configure_calibration simDriver stdBits main_rshunt 205 205 5 2
          simWorld).world.trace) =
      readValues (newEvents 0
        (calculate_and_configure_calibration simDriverAlt stdBits main_rshunt 205 205 5 2
          ⟨(0, 0), []⟩).world.trace) ∧
    (readValues (newEvents 0
        (calculate_and_configure_calibration simDriver stdBits main_rshunt 205 205 5 2
          simWorld).world.trace)).length = 72 ∧
    newEvents 0
        (calculate_and_configure_calibration simDriver stdBits main_rshunt 205 205 5 2
          simWorld).world.trace =
      newEvents 0
        (calculate_and_configure_calibration simDriverAlt stdBits main_rshunt 205 205 5 2
          ⟨(0, 0), []⟩).world.trace ∧
    records (newEvents 0
        (calculate_and_configure_calibration simDriver stdBits main_rshunt 205 205 5 2
          simWorld).world.trace) =
      records (newEvents 0
        (calculate_and_configure_calibration simDriverAlt stdBits main_rshunt 205 205 5 2
          ⟨(0, 0), []⟩).world.trace) ∧
    devOps (newEvents 0
        (calculate_and_configure_calibration simDriver stdBits main_rshunt 205 205 5 2
          simWorld).world.trace) =
      devOps (newEvents 0
        (calculate_and_configure_calibration simDriverAlt stdBits main_rshunt 205 205 5 2
          ⟨(0, 0), []⟩).world.trace) :=
  ⟨by decide!, by decide!,
    C9_same_responses_same_trace simDriver simDriverAlt stdBits main_rshunt 205 205 5 2
      simWorld ⟨(0, 0), []⟩ (by decide!)⟩

/-! ## C14 -/

/-- C14: when `imin > imax` the loop condition fails at once: the function returns the world
it was given, so it has printed nothing and has made no device call of any kind (no reset,
write, read or delay), and the device state is untouched. -/
theorem C14_empty_range_does_nothing {σ : Type} (D : Driver σ) (bits : ConfigBits)
    (rshunt : Rat) (imin imax istep : Int) (fuel : Nat) (w : World σ)
    (h : imax < imin) (hfuel : 0 < fuel) :
    calculate_and_configure_calibration D bits rshunt imin imax istep fuel w =
      Outcome.returned w ∧
    newEvents w.trace.length
      (calculate_and_configure_calibration D bits rshunt imin imax istep fuel w).world.trace
      = [] ∧
    records (newEvents w.trace.length
      (calculate_and_configure_calibration D bits rshunt imin imax istep fuel w).world.trace)
      = [] ∧
    devOps (newEvents w.trace.length
      (calculate_and_configure_calibration D bits rshunt imin imax istep fuel w).world.trace)
      = [] := by
  have hret : calculate_and_configure_calibration D bits rshunt imin imax istep fuel w =
      Outcome.returned w := by
    obtain ⟨n, rfl⟩ : ∃ n, fuel = n + 1 := ⟨fuel - 1, by omega⟩
    rw [calculate_and_configure_calibration, sweepLoop, if_neg (by omega)]
  rw [hret]
  simp [Outcome.world, newEvents, records, devOps]

/-- C14, witness: the sweep asked to go from 3200 mA down to 205 mA in steps of 5 mA, on the
simulated device. -/
theorem C14_empty_range_does_nothing_witness :
    (205 : Int) < 3200 ∧ 0 < 1 ∧
    calculate_and_configure_calibration simDriver stdBits main_rshunt 3200 205 5 1 simWorld =
      Outcome.returned simWorld ∧
    newEvents simWorld.trace.length
      (calculate_and_configure_calibration simDriver stdBits main_rshunt 3200 205 5 1
        simWorld).world.trace = [] ∧
    records (newEvents simWorld.trace.length
      (calculate_and_configure_calibration simDriver stdBits main_rshunt 3200 205 5 1
        simWorld).world.trace) = [] ∧
    devOps (newEvents simWorld.trace.length
      (calculate_and_configure_calibration simDriver stdBits main_rshunt 3200 205 5 1
        simWorld).world.trace) = [] :=
  ⟨by decide, by decide,
    C14_empty_range_does_nothing simDriver stdBits main_rshunt 3200 205 5 1 simWorld
      (by decide) (by decide)⟩

/-! ## the overflow test never fires -/

theorem calibration_not_gt (rshunt : Rat) (ma scale : Int) :
    ¬ 65535 < calibration rshunt ma scale := by
  have := calibration_le rshunt ma scale
  omega

theorem trial_tags_programmed {σ : Type} (D : Driver σ) (bits : ConfigBits) (rshunt : Rat)
    (ma : Int) (w : World σ) (scale : Int) :
    ∃ new, (trial D bits rshunt ma w scale).trace = w.trace ++ new ∧
      new.filterMap Event.tag? =
        [Tag.program (calibration rshunt ma scale), Tag.data 1 ma scale,
          Tag.data 2 ma scale, Tag.data 3 ma scale] := by
  obtain ⟨new, h1, h2⟩ := trial_tags D bits rshunt ma w scale
  exact ⟨new, h1, by rw [h2, if_neg (calibration_not_gt rshunt ma scale)]⟩

theorem trial_skipLines {σ : Type} (D : Driver σ) (bits : ConfigBits) (rshunt : Rat)
    (ma : Int) (w : World σ) (scale : Int) :
    ∃ new, (trial D bits rshunt ma w scale).trace = w.trace ++ new ∧
      new.filterMap Event.skipLine? = [] := by
  obtain ⟨b1, c1, s1, b2, c2, s2, b3, c3, s3, ht⟩ :=
    trial_programmed D bits rshunt ma scale w (calibration_not_gt rshunt ma scale)
  exact ⟨_, ht, by simp [Event.skipLine?]⟩

/-- The projection of a block, together with its one header. -/
theorem block_filterMap_header {σ β : Type} (D : Driver σ) (bits : ConfigBits) (rshunt : Rat)
    (p : Event → Option β) (g : Int → Int → List β)
    (h : ∀ ma w scale, ∃ new, (trial D bits rshunt ma w scale).trace = w.trace ++ new ∧
      new.filterMap p = g ma scale) (w : World σ) (ma : Int) :
    ∃ new, (block D bits rshunt w ma).trace = w.trace ++ new ∧
      new.filterMap p =
        [Event.out (Record.header ma (max_current_a ma))].filterMap p ++
        ([1, 2, 3, 4, 5, 6, 7, 8].flatMap (g ma) ++
        [Event.out (Record.footer ma (max_current_a ma))].filterMap p) ∧
      new.filterMap Event.headerValue? = [ma] := by
  obtain ⟨n1, a1, a2⟩ := block_filterMap D bits rshunt p g h w ma
  obtain ⟨n2, b1, b2⟩ := block_headerValues D bits rshunt w ma
  have e : n2 = n1 := List.append_cancel_left (b1.symm.trans a1)
  subst e
  exact ⟨n2, a1, a2, b2⟩

/-- The projection of a sweep, returned or not, in terms of the headers it has printed. -/
theorem sweepLoop_filterMap_any {σ β : Type} (D : Driver σ) (bits : ConfigBits) (rshunt : Rat)
    (imax istep : Int) (p : Event → Option β) (G : Int → List β)
    (hb : ∀ w ma, ∃ new, (block D bits rshunt w ma).trace = w.trace ++ new ∧
      new.filterMap p = G ma ∧ new.filterMap Event.headerValue? = [ma]) :
    ∀ (fuel : Nat) (ma : Int) (w : World σ), ∃ new,
      (sweepLoop D bits rshunt imax istep fuel ma w).world.trace = w.trace ++ new ∧
      new.filterMap p = (headerValues new).flatMap G := by
  intro fuel
  induction fuel with
  | zero => intro ma w; exact ⟨[], by simp [sweepLoop, Outcome.world], by simp [headerValues]⟩
  | succ fuel ih =>
    intro ma w
    by_cases hle : ma ≤ imax
    · obtain ⟨n1, h1, h2, h3⟩ := hb w ma
      obtain ⟨n2, h4, h5⟩ := ih (wrapInt32 (ma + istep)) (block D bits rshunt w ma)
      refine ⟨n1 ++ n2, ?_, ?_⟩
      · rw [sweepLoop, if_pos hle, h4, h1, List.append_assoc]
      · rw [List.filterMap_append, headerValues, List.filterMap_append, h2, h3, h5]
        rfl
    · exact ⟨[], by simp [sweepLoop, hle, Outcome.world], by simp [headerValues]⟩

/-! ## monotonicity of binary64 rounding -/

theorem floor_le_roundHalfEven (x : Rat) : Rat.floor x ≤ roundHalfEven x := by
  unfold roundHalfEven
  simp only
  split_ifs <;> omega

theorem roundHalfEven_le_floor_succ (x : Rat) : roundHalfEven x ≤ Rat.floor x + 1 := by
  unfold roundHalfEven
  simp only
  split_ifs <;> omega

theorem roundHalfEven_intCast (n : Int) : roundHalfEven (n : Rat) = n := by
  have hf : Rat.floor (n : Rat) = n := @Int.floor_intCast Rat _ _ n
  unfold roundHalfEven
  simp only [hf, sub_self]
  norm_num

theorem roundHalfEven_mono {x y : Rat} (h : x ≤ y) : roundHalfEven x ≤ roundHalfEven y := by
  have hf : Rat.floor x ≤ Rat.floor y := Int.floor_le_floor h
  rcases lt_or_eq_of_le hf with hlt | heq
  · have h1 := roundHalfEven_le_floor_succ x
    have h2 := floor_le_roundHalfEven y
    omega
  · unfold roundHalfEven
    simp only
    rw [heq]
    split_ifs with a1 a2 a3 a4 a5 a6 a7 a8 a9 <;> first | omega | (exfalso; linarith)

/-- Rounding to binary64 preserves the order of positive values. -/
theorem rn_mono_pos {x y : Rat} (hx : 0 < x) (h : x ≤ y) : rn x ≤ rn y := by
  have hy : 0 < y := lt_of_lt_of_le hx h
  have hx0 : x ≠ 0 := hx.ne'
  have hy0 : y ≠ 0 := hy.ne'
  have lx := ilog2_le x hx0
  have ux := ilog2_lt x hx0
  have ly := ilog2_le y hy0
  have uy := ilog2_lt y hy0
  rw [abs_of_pos hx] at lx ux
  rw [abs_of_pos hy] at ly uy
  have hexp : ilog2 x ≤ ilog2 y := by
    by_contra hc
    have h1 : ilog2 y + 1 ≤ ilog2 x := by omega
    have h2 : (2 : Rat) ^ (ilog2 y + 1) ≤ (2 : Rat) ^ ilog2 x :=
      zpow_le_zpow_right₀ (by norm_num) h1
    linarith
  unfold rn
  rw [if_neg hx0, if_neg hy0]
  simp only [pow2_eq_zpow]
  rcases lt_or_eq_of_le hexp with hlt | heq
  · have hux : (0 : Rat) < (2 : Rat) ^ (ilog2 x - 52) := by positivity
    have huy : (0 : Rat) < (2 : Rat) ^ (ilog2 y - 52) := by positivity
    have e53 : (2 : Rat) ^ (ilog2 x + 1) = (2 ^ 53 : Int) * (2 : Rat) ^ (ilog2 x - 52) := by
      have : ilog2 x + 1 = 53 + (ilog2 x - 52) := by ring
      rw [this, zpow_add₀ (by norm_num)]
      norm_num
    have e52 : (2 : Rat) ^ ilog2 y = (2 ^ 52 : Int) * (2 : Rat) ^ (ilog2 y - 52) := by
      have : ilog2 y = 52 + (ilog2 y - 52) := by ring
      rw [this, zpow_add₀ (by norm_num)]
      have : (52 : Int) + (52 + (ilog2 y - 52) - 52) = 52 + (ilog2 y - 52) := by ring
      norm_num
    have hx53 : x / (2 : Rat) ^ (ilog2 x - 52) ≤ ((2 ^ 53 : Int) : Rat) := by
      rw [div_le_iff₀ hux, ← e53]
      exact ux.le
    have hy52 : ((2 ^ 52 : Int) : Rat) ≤ y / (2 : Rat) ^ (ilog2 y - 52) := by
      rw [le_div_iff₀ huy, ← e52]
      exact ly
    have r1 : roundHalfEven (x / (2 : Rat) ^ (ilog2 x - 52)) ≤ (2 ^ 53 : Int) := by
      have := roundHalfEven_mono hx53
      rwa [roundHalfEven_intCast] at this
    have r2 : (2 ^ 52 : Int) ≤ roundHalfEven (y / (2 : Rat) ^ (ilog2 y - 52)) := by
      have := roundHalfEven_mono hy52
      rwa [roundHalfEven_intCast] at this
    have r1' : (roundHalfEven (x / (2 : Rat) ^ (ilog2 x - 52)) : Rat) ≤ ((2 ^ 53 : Int) : Rat) := by
      exact_mod_cast r1
    have r2' : ((2 ^ 52 : Int) : Rat) ≤ (roundHalfEven (y / (2 : Rat) ^ (ilog2 y - 52)) : Rat) := by
      exact_mod_cast r2
    have hmid : (2 : Rat) ^ (ilog2 x + 1) ≤ (2 : Rat) ^ ilog2 y :=
      zpow_le_zpow_right₀ (by norm_num) (by omega)
    calc (roundHalfEven (x / (2 : Rat) ^ (ilog2 x - 52)) : Rat) * (2 : Rat) ^ (ilog2 x - 52)
        ≤ ((2 ^ 53 : Int) : Rat) * (2 : Rat) ^ (ilog2 x - 52) :=
          mul_le_mul_of_nonneg_right r1' hux.le
      _ = (2 : Rat) ^ (ilog2 x + 1) := e53.symm
      _ ≤ (2 : Rat) ^ ilog2 y := hmid
      _ = ((2 ^ 52 : Int) : Rat) * (2 : Rat) ^ (ilog2 y - 52) := e52
      _ ≤ (roundHalfEven (y / (2 : Rat) ^ (ilog2 y - 52)) : Rat) * (2 : Rat) ^ (ilog2 y - 52) :=
          mul_le_mul_of_nonneg_right r2' huy.le
  · rw [heq]
    have huy : (0 : Rat) < (2 : Rat) ^ (ilog2 y - 52) := by positivity
    have hdiv : x / (2 : Rat) ^ (ilog2 y - 52) ≤ y / (2 : Rat) ^ (ilog2 y - 52) :=
      div_le_div_of_nonneg_right h huy.le
    have := roundHalfEven_mono hdiv
    have hc : (roundHalfEven (x / (2 : Rat) ^ (ilog2 y - 52)) : Rat) ≤
        (roundHalfEven (y / (2 : Rat) ^ (ilog2 y - 52)) : Rat) := by exact_mod_cast this
    exact mul_le_mul_of_nonneg_right hc huy.le

theorem rn_pos {x : Rat} (hx : 0 < x) : 0 < rn x := by
  have h := abs_le.mp (rn_err x)
  rw [abs_of_pos hx] at h
  have : x * (1 / 2 ^ 53) < x := by
    have : (1 / 2 ^ 53 : Rat) < 1 := by norm_num
    nlinarith
  linarith [h.1]

/-! ## C13 -/

theorem scaled_lsb_pos (ma scale : Int) (hma : 0 < ma) (hs : 0 < scale) :
    0 < scaled_lsb ma scale := by
  have hma' : (0 : Rat) < ma := by exact_mod_cast hma
  have hs' : (0 : Rat) < scale := by exact_mod_cast hs
  have h1 : 0 < max_current_a ma := rn_pos (by positivity)
  have h2 : 0 < current_lsb ma := rn_pos (by positivity)
  exact rn_pos (by positivity)

theorem scaled_lsb_mono (ma ma' scale scale' : Int) (hma : 0 < ma) (hma' : ma ≤ ma')
    (hs : 0 < scale) (hs' : scale ≤ scale') :
    scaled_lsb ma scale ≤ scaled_lsb ma' scale' := by
  have c1 : (0 : Rat) < ma := by exact_mod_cast hma
  have c2 : (ma : Rat) ≤ ma' := by exact_mod_cast hma'
  have c3 : (0 : Rat) < scale := by exact_mod_cast hs
  have c4 : (scale : Rat) ≤ scale' := by exact_mod_cast hs'
  have h1 : max_current_a ma ≤ max_current_a ma' :=
    rn_mono_pos (by positivity) (div_le_div_of_nonneg_right c2 (by norm_num))
  have p1 : 0 < max_current_a ma := rn_pos (by positivity)
  have h2 : current_lsb ma ≤ current_lsb ma' :=
    rn_mono_pos (by positivity) (div_le_div_of_nonneg_right h1 (by norm_num))
  have p2 : 0 < current_lsb ma := rn_pos (by positivity)
  have p2' : 0 < current_lsb ma' := lt_of_lt_of_le p2 h2
  exact rn_mono_pos (by positivity) (mul_le_mul h2 c4 c3.le p2'.le)

/-- The `double` computed on source line 32 does not increase when `max_current_ma` or
`scale` increase. -/
theorem calibration_f64_anti (rshunt : Rat) (ma ma' scale scale' : Int) (hr : 0 < rshunt)
    (hma : 0 < ma) (hma' : ma ≤ ma') (hs : 0 < scale) (hs' : scale ≤ scale') :
    calibration_f64 rshunt ma' scale' ≤ calibration_f64 rshunt ma scale := by
  have h1 := scaled_lsb_mono ma ma' scale scale' hma hma' hs hs'
  have p1 := scaled_lsb_pos ma scale hma hs
  have h2 : fmul (scaled_lsb ma scale) rshunt ≤ fmul (scaled_lsb ma' scale') rshunt :=
    rn_mono_pos (by positivity) (mul_le_mul_of_nonneg_right h1 hr.le)
  have p2 : 0 < fmul (scaled_lsb ma scale) rshunt := rn_pos (by positivity)
  have p2' : 0 < fmul (scaled_lsb ma' scale') rshunt := lt_of_lt_of_le p2 h2
  have hc : 0 < lit_0_04096 := rn_pos (by norm_num)
  exact rn_mono_pos (div_pos hc p2') (div_le_div_of_nonneg_left hc.le p2 h2)

/-- The exact quotient of the specification does not increase when `max_current_mA` or
`scale` increase. -/
theorem calibration_quotient_spec_anti (rshunt : Rat) (ma ma' scale scale' : Int)
    (hr : 0 < rshunt) (hma : 0 < ma) (hma' : ma ≤ ma') (hs : 0 < scale) (hs' : scale ≤ scale') :
    calibration_quotient_spec rshunt ma' scale' ≤ calibration_quotient_spec rshunt ma scale := by
  have c1 : (0 : Rat) < ma := by exact_mod_cast hma
  have c2 : (ma : Rat) ≤ ma' := by exact_mod_cast hma'
  have c3 : (0 : Rat) < scale := by exact_mod_cast hs
  have c4 : (scale : Rat) ≤ scale' := by exact_mod_cast hs'
  have c1' : (0 : Rat) < ma' := lt_of_lt_of_le c1 c2
  rw [calibration_quotient_spec_eq, calibration_quotient_spec_eq]
  apply div_le_div_of_nonneg_left (by norm_num) (by positivity)
  exact mul_le_mul_of_nonneg_right (mul_le_mul c2 c4 c3.le c1'.le) hr.le

/-- A property of the scales that passes from a scale to every smaller one holds exactly on
an initial segment `1..k`. -/
theorem initial_segment (P : Int → Prop) (hP : ∀ s s', 1 ≤ s → s ≤ s' → P s' → P s) :
    ∀ n : Nat, ∃ k : Int, 0 ≤ k ∧ k ≤ (n : Int) ∧
      ∀ s : Int, 1 ≤ s → s ≤ (n : Int) → (P s ↔ s ≤ k) := by
  intro n
  induction n with
  | zero => exact ⟨0, le_refl _, le_refl _, fun s h1 h2 => by simp at h2; omega⟩
  | succ n ih =>
    by_cases hp : P ((n : Int) + 1)
    · refine ⟨(n : Int) + 1, by omega, by push_cast; omega, fun s h1 h2 => ?_⟩
      push_cast at h2
      exact ⟨fun _ => h2, fun _ => hP s _ h1 h2 hp⟩
    · obtain ⟨k, k0, kn, hk⟩ := ih
      refine ⟨k, k0, by push_cast; omega, fun s h1 h2 => ?_⟩
      push_cast at h2
      by_cases hs : s ≤ (n : Int)
      · exact hk s h1 hs
      · have e : s = (n : Int) + 1 := by omega
        subst e
        exact ⟨fun h => absurd h hp, fun h => by omega⟩

/-- C13: for `rshunt > 0`, the full-precision calibration value, both as the exact formula
of the specification and as the integral part of the `double` the source computes, does not
increase when `max_current_ma > 0` or `scale ≥ 1` increase.  Hence a trial point that does
not overflow is followed by none that does, and within one block the overflowing scales are
exactly `1..k` for some `k` between 0 and 8. -/
theorem C13_calibration_monotone (rshunt : Rat) (ma ma' scale scale' : Int)
    (hr : 0 < rshunt) (hma : 0 < ma) (hma' : ma ≤ ma') (hs : 1 ≤ scale) (hs' : scale ≤ scale') :
    calibration_raw_spec rshunt ma' scale' ≤ calibration_raw_spec rshunt ma scale ∧
    Rat.floor (calibration_f64 rshunt ma' scale') ≤ Rat.floor (calibration_f64 rshunt ma scale) ∧
    (¬ 65535 < calibration_raw_spec rshunt ma scale →
      ¬ 65535 < calibration_raw_spec rshunt ma' scale') ∧
    (¬ 65535 < Rat.floor (calibration_f64 rshunt ma scale) →
      ¬ 65535 < Rat.floor (calibration_f64 rshunt ma' scale')) ∧
    (∃ k : Int, 0 ≤ k ∧ k ≤ 8 ∧ ∀ s : Int, 1 ≤ s → s ≤ 8 →
      (65535 < calibration_raw_spec rshunt ma s ↔ s ≤ k)) ∧
    (∃ k : Int, 0 ≤ k ∧ k ≤ 8 ∧ ∀ s : Int, 1 ≤ s → s ≤ 8 →
      (65535 < Rat.floor (calibration_f64 rshunt ma s) ↔ s ≤ k)) := by
  have m1 : ∀ a a' s s' : Int, 0 < a → a ≤ a' → 1 ≤ s → s ≤ s' →
      calibration_raw_spec rshunt a' s' ≤ calibration_raw_spec rshunt a s :=
    fun a a' s s' h1 h2 h3 h4 =>
      Int.floor_le_floor (calibration_quotient_spec_anti rshunt a a' s s' hr h1 h2 (by omega) h4)
  have m2 : ∀ a a' s s' : Int, 0 < a → a ≤ a' → 1 ≤ s → s ≤ s' →
      Rat.floor (calibration_f64 rshunt a' s') ≤ Rat.floor (calibration_f64 rshunt a s) :=
    fun a a' s s' h1 h2 h3 h4 =>
      Int.floor_le_floor (calibration_f64_anti rshunt a a' s s' hr h1 h2 (by omega) h4)
  have i1 := initial_segment (fun s => 65535 < calibration_raw_spec rshunt ma s)
    (fun s s' h1 h2 h3 => lt_of_lt_of_le h3 (m1 ma ma s s' hma (le_refl _) h1 h2)) 8
  have i2 := initial_segment (fun s => 65535 < Rat.floor (calibration_f64 rshunt ma s))
    (fun s s' h1 h2 h3 => lt_of_lt_of_le h3 (m2 ma ma s s' hma (le_refl _) h1 h2)) 8
  have q1 := m1 ma ma' scale scale' hma hma' hs hs'
  have q2 := m2 ma ma' scale scale' hma hma' hs hs'
  exact ⟨q1, q2, fun h => by omega, fun h => by omega, by exact_mod_cast i1,
    by exact_mod_cast i2⟩

/-- C13, witness: for `rshunt = 0.1` the value falls from 134217 at (100 mA, scale 1) to
32736 at (205 mA, scale 2); at 100 mA the scales 1 and 2 overflow and scale 3 does not. -/
theorem C13_calibration_monotone_witness :
    (0 : Rat) < main_rshunt ∧ (0 : Int) < 100 ∧ (100 : Int) ≤ 205 ∧ (1 : Int) ≤ 1 ∧
    (1 : Int) ≤ 2 ∧
    calibration_raw_spec main_rshunt 100 1 = 134217 ∧
    calibration_raw_spec main_rshunt 100 2 = 67108 ∧
    calibration_raw_spec main_rshunt 100 3 = 44739 ∧
    calibration_raw_spec main_rshunt 205 2 = 32736 ∧
    calibration_raw_spec main_rshunt 205 2 ≤ calibration_raw_spec main_rshunt 100 1 ∧
    Rat.floor (calibration_f64 main_rshunt 205 2) ≤
      Rat.floor (calibration_f64 main_rshunt 100 1) :=
  ⟨by decide!, by decide, by decide, by decide, by decide, by decide!, by decide!, by decide!,
    by decide!,
    (C13_calibration_monotone main_rshunt 100 205 1 2 (by decide!) (by decide) (by decide)
      (by decide) (by decide)).1,
    (C13_calibration_monotone main_rshunt 100 205 1 2 (by decide!) (by decide) (by decide)
      (by decide) (by decide)).2.1⟩

/-! ## the sweep of `main` -/

theorem trial_footerValues {σ : Type} (D : Driver σ) (bits : ConfigBits) (rshunt : Rat)
    (ma : Int) (w : World σ) (scale : Int) :
    ∃ new, (trial D bits rshunt ma w scale).trace = w.trace ++ new ∧
      new.filterMap Event.footerValue? = [] := by
  obtain ⟨b1, c1, s1, b2, c2, s2, b3, c3, s3, ht⟩ :=
    trial_programmed D bits rshunt ma scale w (calibration_not_gt rshunt ma scale)
  exact ⟨_, ht, by simp [Event.footerValue?]⟩

theorem trial_dataIndices {σ : Type} (D : Driver σ) (bits : ConfigBits) (rshunt : Rat)
    (ma : Int) (w : World σ) (scale : Int) :
    ∃ new, (trial D bits rshunt ma w scale).trace = w.trace ++ new ∧
      new.filterMap Event.dataIndex? = [1, 2, 3] := by
  obtain ⟨b1, c1, s1, b2, c2, s2, b3, c3, s3, ht⟩ :=
    trial_programmed D bits rshunt ma scale w (calibration_not_gt rshunt ma scale)
  exact ⟨_, ht, by simp [Event.dataIndex?]⟩

theorem trial_writes {σ : Type} (D : Driver σ) (bits : ConfigBits) (rshunt : Rat)
    (ma : Int) (w : World σ) (scale : Int) :
    ∃ new, (trial D bits rshunt ma w scale).trace = w.trace ++ new ∧
      new.filterMap Event.calibrationWrite? = [calibration rshunt ma scale] := by
  obtain ⟨b1, c1, s1, b2, c2, s2, b3, c3, s3, ht⟩ :=
    trial_programmed D bits rshunt ma scale w (calibration_not_gt rshunt ma scale)
  exact ⟨_, ht, by simp [Event.calibrationWrite?]⟩

theorem length_flatMap_const {α β : Type} (g : α → List β) (c : Nat)
    (h : ∀ x, (g x).length = c) : ∀ l : List α, (l.flatMap g).length = l.length * c := by
  intro l
  induction l with
  | nil => simp
  | cons a l ih => rw [List.flatMap_cons, List.length_append, ih, h a, List.length_cons]; ring

/-- Every trial point of the range swept by `main` has a calibration value between those of
its two corners. -/
theorem main_range (ma scale : Int) (h1 : 205 ≤ ma) (h2 : ma ≤ 3200) (h3 : 1 ≤ scale)
    (h4 : scale ≤ 8) :
    524 ≤ calibration_raw_spec main_rshunt ma scale ∧
    calibration_raw_spec main_rshunt ma scale ≤ 65472 ∧
    524 ≤ Rat.floor (calibration_f64 main_rshunt ma scale) ∧
    Rat.floor (calibration_f64 main_rshunt ma scale) ≤ 65472 ∧
    calibration main_rshunt ma scale = (Rat.floor (calibration_f64 main_rshunt ma scale)).toNat := by
  have hr : (0 : Rat) < main_rshunt := by decide!
  have a1 : calibration_raw_spec main_rshunt 3200 8 = 524 := by decide!
  have a2 : calibration_raw_spec main_rshunt 205 1 = 65472 := by decide!
  have a3 : Rat.floor (calibration_f64 main_rshunt 3200 8) = 524 := by decide!
  have a4 : Rat.floor (calibration_f64 main_rshunt 205 1) = 65472 := by decide!
  have b1 : calibration_raw_spec main_rshunt 3200 8 ≤ calibration_raw_spec main_rshunt ma scale :=
    Int.floor_le_floor
      (calibration_quotient_spec_anti main_rshunt ma 3200 scale 8 hr (by omega) h2 (by omega) h4)
  have b2 : calibration_raw_spec main_rshunt ma scale ≤ calibration_raw_spec main_rshunt 205 1 :=
    Int.floor_le_floor
      (calibration_quotient_spec_anti main_rshunt 205 ma 1 scale hr (by omega) h1 (by omega) h3)
  have b3 : Rat.floor (calibration_f64 main_rshunt 3200 8) ≤
      Rat.floor (calibration_f64 main_rshunt ma scale) :=
    Int.floor_le_floor
      (calibration_f64_anti main_rshunt ma 3200 scale 8 hr (by omega) h2 (by omega) h4)
  have b4 : Rat.floor (calibration_f64 main_rshunt ma scale) ≤
      Rat.floor (calibration_f64 main_rshunt 205 1) :=
    Int.floor_le_floor
      (calibration_f64_anti main_rshunt 205 ma 1 scale hr (by omega) h1 (by omega) h3)
  rw [a1] at b1
  rw [a2] at b2
  rw [a3] at b3
  rw [a4] at b4
  refine ⟨b1, b2, b3, b4, ?_⟩
  unfold calibration
  exact toUint16_of_floor _ _ (by omega) (by omega) (Int.floor_le _) (Int.lt_floor_add_one _)

/-! ## the device calls of a trial -/

/-- A trial that is not skipped, spelled out: the device state `d0` after the five calls
that program the device, the nine read results `r1 .. r9`, each read made on the state the
previous one left, the final device state, and the seventeen events added to the trace. -/
theorem trial_programmed_full {σ : Type} (D : Driver σ) (bits : ConfigBits) (rshunt : Rat)
    (ma scale : Int) (w : World σ) (h : ¬ 65535 < calibration rshunt ma scale) :
    ∃ (d0 : σ) (r1 r2 r3 r4 r5 r6 r7 r8 r9 : Int × σ),
      d0 = D.HAL_Delay 1 (D.INA219_setConfig (configWord bits)
        (D.INA219_setCalibration (calibration rshunt ma scale)
          (D.HAL_Delay 1 (D.INA219_Reset w.dev)))) ∧
      r1 = D.INA219_ReadBusVoltage d0 ∧ r2 = D.INA219_ReadCurrent r1.2 ∧
      r3 = D.INA219_ReadShuntVolage r2.2 ∧
      r4 = D.INA219_ReadBusVoltage r3.2 ∧ r5 = D.INA219_ReadCurrent r4.2 ∧
      r6 = D.INA219_ReadShuntVolage r5.2 ∧
      r7 = D.INA219_ReadBusVoltage r6.2 ∧ r8 = D.INA219_ReadCurrent r7.2 ∧
      r9 = D.INA219_ReadShuntVolage r8.2 ∧
      (trial D bits rshunt ma w scale).dev = r9.2 ∧
      (trial D bits rshunt ma w scale).trace = w.trace ++
        [Event.dev DevOp.reset, Event.dev (DevOp.delay 1),
         Event.dev (DevOp.setCalibration (calibration rshunt ma scale)),
         Event.dev (DevOp.setConfig (configWord bits)), Event.dev (DevOp.delay 1),
         Event.dev (DevOp.readBusVoltage (u16 r1.1)), Event.dev (DevOp.readCurrent (i16 r2.1)),
         Event.dev (DevOp.readShuntVolage (u16 r3.1)),
         Event.out (Record.data 1 ma (max_current_a ma) (scaled_lsb ma scale) scale
           (calibration rshunt ma scale) (calibration rshunt ma scale)
           (u16 r1.1) (i16 r2.1) (u16 r3.1)),
         Event.dev (DevOp.readBusVoltage (u16 r4.1)), Event.dev (DevOp.readCurrent (i16 r5.1)),
         Event.dev (DevOp.readShuntVolage (u16 r6.1)),
         Event.out (Record.data 2 ma (max_current_a ma) (scaled_lsb ma scale) scale
           (calibration rshunt ma scale) (calibration rshunt ma scale)
           (u16 r4.1) (i16 r5.1) (u16 r6.1)),
         Event.dev (DevOp.readBusVoltage (u16 r7.1)), Event.dev (DevOp.readCurrent (i16 r8.1)),
         Event.dev (DevOp.readShuntVolage (u16 r9.1)),
         Event.out (Record.data 3 ma (max_current_a ma) (scaled_lsb ma scale) scale
           (calibration rshunt ma scale) (calibration rshunt ma scale)
           (u16 r7.1) (i16 r8.1) (u16 r9.1))] := by
  refine ⟨_, _, _, _, _, _, _, _, _, _, rfl, rfl, rfl, rfl, rfl, rfl, rfl, rfl, rfl, rfl, ?_, ?_⟩
  · simp only [trial, h, if_false, List.foldl_cons, List.foldl_nil, sample, World.log]
  · simp only [trial, h, if_false, List.foldl_cons, List.foldl_nil, sample, World.log,
      List.append_assoc, List.singleton_append, List.cons_append, List.nil_append]

/-- The device after a trial is the device after its driver calls. -/
theorem trial_dev {σ : Type} (D : Driver σ) (bits : ConfigBits) (rshunt : Rat)
    (ma : Int) (w : World σ) (scale : Int) :
    (trial D bits rshunt ma w scale).dev = trialDevice D bits rshunt ma w.dev scale := by
  simp only [trial, calibration_not_gt rshunt ma scale, if_false, List.foldl_cons,
    List.foldl_nil, sample, World.log, trialDevice]

theorem foldl_dev {σ α : Type} (F : World σ → α → World σ) (f : σ → α → σ)
    (h : ∀ w x, (F w x).dev = f w.dev x) :
    ∀ (xs : List α) (w : World σ), (xs.foldl F w).dev = xs.foldl f w.dev := by
  intro xs
  induction xs with
  | nil => intro w; rfl
  | cons x xs ih => intro w; rw [List.foldl_cons, List.foldl_cons, ih, h]

/-- The device after a block is the device after the driver calls of its eight trials. -/
theorem block_dev {σ : Type} (D : Driver σ) (bits : ConfigBits) (rshunt : Rat)
    (w : World σ) (ma : Int) :
    (block D bits rshunt w ma).dev = blockDevice D bits rshunt w.dev ma := by
  have := foldl_dev (trial D bits rshunt ma) (trialDevice D bits rshunt ma)
    (fun w s => trial_dev D bits rshunt ma w s) [1, 2, 3, 4, 5, 6, 7, 8]
    (w.log (Event.out (Record.header ma (max_current_a ma))))
  simp only [block, log_dev]
  exact this

/-! ## C5 -/

/-- C5: a trial that is not skipped makes exactly these driver calls, each on the device
state the previous call left, in this order: reset, a delay of 1 ms, `set_calibration`,
`set_config` with the configuration word (which depends on nothing but the
`INA219_CONFIG_*` constants), a delay of 1 ms, and three times the reads of bus voltage,
current and shunt voltage.  The device it leaves is the one the last read left, and the
calls are recorded in the trace in that order, with nothing else between them. -/
theorem C5_device_operations {σ : Type} (D : Driver σ) (bits : ConfigBits) (rshunt : Rat)
    (ma scale : Int) (w : World σ) (h : ¬ 65535 < calibration rshunt ma scale) :
    ∃ (d0 : σ) (r1 r2 r3 r4 r5 r6 r7 r8 r9 : Int × σ) (new : List Event),
      d0 = D.HAL_Delay 1 (D.INA219_setConfig (configWord bits)
        (D.INA219_setCalibration (calibration rshunt ma scale)
          (D.HAL_Delay 1 (D.INA219_Reset w.dev)))) ∧
      r1 = D.INA219_ReadBusVoltage d0 ∧ r2 = D.INA219_ReadCurrent r1.2 ∧
      r3 = D.INA219_ReadShuntVolage r2.2 ∧
      r4 = D.INA219_ReadBusVoltage r3.2 ∧ r5 = D.INA219_ReadCurrent r4.2 ∧
      r6 = D.INA219_ReadShuntVolage r5.2 ∧
      r7 = D.INA219_ReadBusVoltage r6.2 ∧ r8 = D.INA219_ReadCurrent r7.2 ∧
      r9 = D.INA219_ReadShuntVolage r8.2 ∧
      (trial D bits rshunt ma w scale).dev = r9.2 ∧
      (trial D bits rshunt ma w scale).trace = w.trace ++ new ∧
      devOps new =
        [DevOp.reset, DevOp.delay 1, DevOp.setCalibration (calibration rshunt ma scale),
         DevOp.setConfig (configWord bits), DevOp.delay 1,
         DevOp.readBusVoltage (u16 r1.1), DevOp.readCurrent (i16 r2.1),
         DevOp.readShuntVolage (u16 r3.1),
         DevOp.readBusVoltage (u16 r4.1), DevOp.readCurrent (i16 r5.1),
         DevOp.readShuntVolage (u16 r6.1),
         DevOp.readBusVoltage (u16 r7.1), DevOp.readCurrent (i16 r8.1),
         DevOp.readShuntVolage (u16 r9.1)] := by
  obtain ⟨d0, r1, r2, r3, r4, r5, r6, r7, r8, r9, e0, e1, e2, e3, e4, e5, e6, e7, e8, e9,
    hd, ht⟩ := trial_programmed_full D bits rshunt ma scale w h
  exact ⟨d0, r1, r2, r3, r4, r5, r6, r7, r8, r9, _, e0, e1, e2, e3, e4, e5, e6, e7, e8, e9,
    hd, ht, by simp [devOps, Event.devOp?]⟩

/-- C5, witness: the trial point `rshunt = 0.1`, `max_current_ma = 205`, `scale = 1` on the
device that counts its calls: one reset, two delays, one calibration write, one
configuration write and nine reads. -/
theorem C5_device_operations_witness :
    ¬ 65535 < calibration main_rshunt 205 1 ∧
    (trial countDriver stdBits main_rshunt 205 ⟨⟨0, 0, 0, 0, 0⟩, []⟩ 1).dev = ⟨1, 2, 1, 1, 9⟩ ∧
    devOps (trial countDriver stdBits main_rshunt 205 ⟨⟨0, 0, 0, 0, 0⟩, []⟩ 1).trace =
      [DevOp.reset, DevOp.delay 1, DevOp.setCalibration 65472, DevOp.setConfig 14751,
       DevOp.delay 1,
       DevOp.readBusVoltage 0, DevOp.readCurrent 0, DevOp.readShuntVolage 0,
       DevOp.readBusVoltage 0, DevOp.readCurrent 0, DevOp.readShuntVolage 0,
       DevOp.readBusVoltage 0, DevOp.readCurrent 0, DevOp.readShuntVolage 0] ∧
    ∃ (d0 : Calls) (r1 r2 r3 r4 r5 r6 r7 r8 r9 : Int × Calls) (new : List Event),
      d0 = countDriver.HAL_Delay 1 (countDriver.INA219_setConfig (configWord stdBits)
        (countDriver.INA219_setCalibration (calibration main_rshunt 205 1)
          (countDriver.HAL_Delay 1 (countDriver.INA219_Reset
            (⟨⟨0, 0, 0, 0, 0⟩, []⟩ : World Calls).dev)))) ∧
      r1 = countDriver.INA219_ReadBusVoltage d0 ∧ r2 = countDriver.INA219_ReadCurrent r1.2 ∧
      r3 = countDriver.INA219_ReadShuntVolage r2.2 ∧
      r4 = countDriver.INA219_ReadBusVoltage r3.2 ∧ r5 = countDriver.INA219_ReadCurrent r4.2 ∧
      r6 = countDriver.INA219_ReadShuntVolage r5.2 ∧
      r7 = countDriver.INA219_ReadBusVoltage r6.2 ∧ r8 = countDriver.INA219_ReadCurrent r7.2 ∧
      r9 = countDriver.INA219_ReadShuntVolage r8.2 ∧
      (trial countDriver stdBits main_rshunt 205 ⟨⟨0, 0, 0, 0, 0⟩, []⟩ 1).dev = r9.2 ∧
      (trial countDriver stdBits main_rshunt 205 ⟨⟨0, 0, 0, 0, 0⟩, []⟩ 1).trace =
        (⟨⟨0, 0, 0, 0, 0⟩, []⟩ : World Calls).trace ++ new ∧
      devOps new =
        [DevOp.reset, DevOp.delay 1, DevOp.setCalibration (calibration main_rshunt 205 1),
         DevOp.setConfig (configWord stdBits), DevOp.delay 1,
         DevOp.readBusVoltage (u16 r1.1), DevOp.readCurrent (i16 r2.1),
         DevOp.readShuntVolage (u16 r3.1),
         DevOp.readBusVoltage (u16 r4.1), DevOp.readCurrent (i16 r5.1),
         DevOp.readShuntVolage (u16 r6.1),
         DevOp.readBusVoltage (u16 r7.1), DevOp.readCurrent (i16 r8.1),
         DevOp.readShuntVolage (u16 r9.1)] :=
  ⟨by decide!, by decide!, by decide!,
    C5_device_operations countDriver stdBits main_rshunt 205 1 ⟨⟨0, 0, 0, 0, 0⟩, []⟩
      (by decide!)⟩

/-! ## C7 -/

/-- C7: a trial that is not skipped prints exactly three `DATA` lines, with sample indices
1, 2, 3 in that order.  Each comes right after its own three driver reads, each read made
on the device state the previous call left, and carries the values those reads returned
(as stored in the `uint16_t`, `int16_t` and `uint16_t` variables), together with
`max_current_ma`, `max_current_a`, `scaled_lsb`, `scale` and, twice, the very value passed
to `set_calibration` in that trial. -/
theorem C7_data_records {σ : Type} (D : Driver σ) (bits : ConfigBits) (rshunt : Rat)
    (ma scale : Int) (w : World σ) (h : ¬ 65535 < calibration rshunt ma scale) :
    ∃ (cal : Nat) (d0 : σ) (r1 r2 r3 r4 r5 r6 r7 r8 r9 : Int × σ),
      cal = calibration rshunt ma scale ∧
      d0 = D.HAL_Delay 1 (D.INA219_setConfig (configWord bits)
        (D.INA219_setCalibration cal (D.HAL_Delay 1 (D.INA219_Reset w.dev)))) ∧
      r1 = D.INA219_ReadBusVoltage d0 ∧ r2 = D.INA219_ReadCurrent r1.2 ∧
      r3 = D.INA219_ReadShuntVolage r2.2 ∧
      r4 = D.INA219_ReadBusVoltage r3.2 ∧ r5 = D.INA219_ReadCurrent r4.2 ∧
      r6 = D.INA219_ReadShuntVolage r5.2 ∧
      r7 = D.INA219_ReadBusVoltage r6.2 ∧ r8 = D.INA219_ReadCurrent r7.2 ∧
      r9 = D.INA219_ReadShuntVolage r8.2 ∧
      (trial D bits rshunt ma w scale).dev = r9.2 ∧
      (trial D bits rshunt ma w scale).trace = w.trace ++
        [Event.dev DevOp.reset, Event.dev (DevOp.delay 1),
         Event.dev (DevOp.setCalibration cal),
         Event.dev (DevOp.setConfig (configWord bits)), Event.dev (DevOp.delay 1),
         Event.dev (DevOp.readBusVoltage (u16 r1.1)), Event.dev (DevOp.readCurrent (i16 r2.1)),
         Event.dev (DevOp.readShuntVolage (u16 r3.1)),
         Event.out (Record.data 1 ma (max_current_a ma) (scaled_lsb ma scale) scale
           cal cal (u16 r1.1) (i16 r2.1) (u16 r3.1)),
         Event.dev (DevOp.readBusVoltage (u16 r4.1)), Event.dev (DevOp.readCurrent (i16 r5.1)),
         Event.dev (DevOp.readShuntVolage (u16 r6.1)),
         Event.out (Record.data 2 ma (max_current_a ma) (scaled_lsb ma scale) scale
           cal cal (u16 r4.1) (i16 r5.1) (u16 r6.1)),
         Event.dev (DevOp.readBusVoltage (u16 r7.1)), Event.dev (DevOp.readCurrent (i16 r8.1)),
         Event.dev (DevOp.readShuntVolage (u16 r9.1)),
         Event.out (Record.data 3 ma (max_current_a ma) (scaled_lsb ma scale) scale
           cal cal (u16 r7.1) (i16 r8.1) (u16 r9.1))] := by
  obtain ⟨d0, r1, r2, r3, r4, r5, r6, r7, r8, r9, e0, e1, e2, e3, e4, e5, e6, e7, e8, e9,
    hd, ht⟩ := trial_programmed_full D bits rshunt ma scale w h
  exact ⟨_, d0, r1, r2, r3, r4, r5, r6, r7, r8, r9, rfl, e0, e1, e2, e3, e4, e5, e6, e7, e8,
    e9, hd, ht⟩

/-- C7, witness: the trial point `rshunt = 0.1`, `max_current_ma = 205`, `scale = 8` on the
simulated device, whose reads answer 12000 + k, -k and k at its k-th read: 8184 is written
and reported in the three `DATA` lines with the nine values read. -/
theorem C7_data_records_witness :
    ¬ 65535 < calibration main_rshunt 205 8 ∧
    records (trial simDriver stdBits main_rshunt 205 simWorld 8).trace =
      [Record.data 1 205 (max_current_a 205) (scaled_lsb 205 8) 8 8184 8184 12000 (-1) 2,
       Record.data 2 205 (max_current_a 205) (scaled_lsb 205 8) 8 8184 8184 12003 (-4) 5,
       Record.data 3 205 (max_current_a 205) (scaled_lsb 205 8) 8 8184 8184 12006 (-7) 8] ∧
    (trial simDriver stdBits main_rshunt 205 simWorld 8).dev = 9 ∧
    ∃ (cal : Nat) (d0 : Nat) (r1 r2 r3 r4 r5 r6 r7 r8 r9 : Int × Nat),
      cal = calibration main_rshunt 205 8 ∧
      d0 = simDriver.HAL_Delay 1 (simDriver.INA219_setConfig (configWord stdBits)
        (simDriver.INA219_setCalibration cal
          (simDriver.HAL_Delay 1 (simDriver.INA219_Reset simWorld.dev)))) ∧
      r1 = simDriver.INA219_ReadBusVoltage d0 ∧ r2 = simDriver.INA219_ReadCurrent r1.2 ∧
      r3 = simDriver.INA219_ReadShuntVolage r2.2 ∧
      r4 = simDriver.INA219_ReadBusVoltage r3.2 ∧ r5 = simDriver.INA219_ReadCurrent r4.2 ∧
      r6 = simDriver.INA219_ReadShuntVolage r5.2 ∧
      r7 = simDriver.INA219_ReadBusVoltage r6.2 ∧ r8 = simDriver.INA219_ReadCurrent r7.2 ∧
      r9 = simDriver.INA219_ReadShuntVolage r8.2 ∧
      (trial simDriver stdBits main_rshunt 205 simWorld 8).dev = r9.2 ∧
      (trial simDriver stdBits main_rshunt 205 simWorld 8).trace = simWorld.trace ++
        [Event.dev DevOp.reset, Event.dev (DevOp.delay 1),
         Event.dev (DevOp.setCalibration cal),
         Event.dev (DevOp.setConfig (configWord stdBits)), Event.dev (DevOp.delay 1),
         Event.dev (DevOp.readBusVoltage (u16 r1.1)), Event.dev (DevOp.readCurrent (i16 r2.1)),
         Event.dev (DevOp.readShuntVolage (u16 r3.1)),
         Event.out (Record.data 1 205 (max_current_a 205) (scaled_lsb 205 8) 8
           cal cal (u16 r1.1) (i16 r2.1) (u16 r3.1)),
         Event.dev (DevOp.readBusVoltage (u16 r4.1)), Event.dev (DevOp.readCurrent (i16 r5.1)),
         Event.dev (DevOp.readShuntVolage (u16 r6.1)),
         Event.out (Record.data 2 205 (max_current_a 205) (scaled_lsb 205 8) 8
           cal cal (u16 r4.1) (i16 r5.1) (u16 r6.1)),
         Event.dev (DevOp.readBusVoltage (u16 r7.1)), Event.dev (DevOp.readCurrent (i16 r8.1)),
         Event.dev (DevOp.readShuntVolage (u16 r9.1)),
         Event.out (Record.data 3 205 (max_current_a 205) (scaled_lsb 205 8) 8
           cal cal (u16 r7.1) (i16 r8.1) (u16 r9.1))] :=
  ⟨by decide!, by decide!, by decide!,
    C7_data_records simDriver stdBits main_rshunt 205 8 simWorld (by decide!)⟩

/-! ## C10 -/

theorem records_map_tag (l : List Event) :
    (records l).map Record.tag = l.filterMap (fun e => (Event.record? e).map Record.tag) := by
  induction l with
  | nil => rfl
  | cons e l ih =>
    cases e with
    | dev op => simpa [records, Event.record?] using ih
    | out r => simpa [records, Event.record?] using ih

theorem trial_recordTags {σ : Type} (D : Driver σ) (bits : ConfigBits) (rshunt : Rat)
    (ma : Int) (w : World σ) (scale : Int) :
    ∃ new, (trial D bits rshunt ma w scale).trace = w.trace ++ new ∧
      new.filterMap (fun e => (Event.record? e).map Record.tag) =
        if 65535 < calibration rshunt ma scale then [Tag.skip ma scale]
        else [Tag.data 1 ma scale, Tag.data 2 ma scale, Tag.data 3 ma scale] := by
  by_cases h : 65535 < calibration rshunt ma scale
  · exact ⟨_, by rw [trial_skipped D bits rshunt ma scale w h, log_trace],
      by simp [Event.record?, Record.tag, h]⟩
  · obtain ⟨b1, c1, s1, b2, c2, s2, b3, c3, s3, ht⟩ := trial_programmed D bits rshunt ma scale w h
    exact ⟨_, ht, by simp [Event.record?, Record.tag, h]⟩

/-- The records of a block: its header, a body made of the lines of the trials for
`scale = 1 .. 8` in order, its footer. -/
theorem block_records_tags {σ : Type} (D : Driver σ) (bits : ConfigBits) (rshunt : Rat)
    (w : World σ) (ma : Int) :
    ∃ new body, (block D bits rshunt w ma).trace = w.trace ++ new ∧
      records new = blockRecords (ma, body) ∧
      (∀ r ∈ body, r.isTrialLineOf ma = true) ∧
      body.map Record.tag = [1, 2, 3, 4, 5, 6, 7, 8].flatMap (fun scale =>
        if 65535 < calibration rshunt ma scale then [Tag.skip ma scale]
        else [Tag.data 1 ma scale, Tag.data 2 ma scale, Tag.data 3 ma scale]) := by
  obtain ⟨n, h1, h2⟩ := foldl_extends (trial D bits rshunt ma)
    (fun new => ∀ r ∈ records new, r.isTrialLineOf ma = true)
    (by simp [records])
    (by
      intro a b ha hb r hr
      rw [records, List.filterMap_append, List.mem_append] at hr
      exact hr.elim (ha r) (hb r))
    (fun w s => trial_lines D bits rshunt ma w s)
    [1, 2, 3, 4, 5, 6, 7, 8] (w.log (Event.out (Record.header ma (max_current_a ma))))
  obtain ⟨n', h3, h4⟩ := foldl_filterMap (trial D bits rshunt ma)
    (fun e => (Event.record? e).map Record.tag)
    (fun scale =>
      if 65535 < calibration rshunt ma scale then [Tag.skip ma scale]
      else [Tag.data 1 ma scale, Tag.data 2 ma scale, Tag.data 3 ma scale])
    (fun w s => trial_recordTags D bits rshunt ma w s)
    [1, 2, 3, 4, 5, 6, 7, 8] (w.log (Event.out (Record.header ma (max_current_a ma))))
  have e : n = n' := List.append_cancel_left (h1.symm.trans h3)
  subst e
  refine ⟨[Event.out (Record.header ma (max_current_a ma))] ++ (n ++
    [Event.out (Record.footer ma (max_current_a ma))]), records n, ?_, ?_, h2, ?_⟩
  · simp only [block, log_trace, h1, List.append_assoc]
  · simp [records, blockRecords, List.filterMap_append, Event.record?]
  · rw [records_map_tag, h4]

theorem sweepLoop_blocks_tags {σ : Type} (D : Driver σ) (bits : ConfigBits) (rshunt : Rat)
    (imax istep : Int) :
    ∀ (fuel : Nat) (ma : Int) (w : World σ),
      ∃ (new : List Event) (blocks : List (Int × List Record)),
      (sweepLoop D bits rshunt imax istep fuel ma w).world.trace = w.trace ++ new ∧
      records new = blocks.flatMap blockRecords ∧
      blocks.map Prod.fst = loopValues imax istep fuel ma ∧
      ∀ b ∈ blocks, (∀ r ∈ b.2, r.isTrialLineOf b.1 = true) ∧
        b.2.map Record.tag = [1, 2, 3, 4, 5, 6, 7, 8].flatMap (fun scale =>
          if 65535 < calibration rshunt b.1 scale then [Tag.skip b.1 scale]
          else [Tag.data 1 b.1 scale, Tag.data 2 b.1 scale, Tag.data 3 b.1 scale]) := by
  intro fuel
  induction fuel with
  | zero =>
    intro ma w
    exact ⟨[], [], by simp [sweepLoop, Outcome.world], by simp [records], by simp [loopValues],
      by simp⟩
  | succ fuel ih =>
    intro ma w
    by_cases hle : ma ≤ imax
    · obtain ⟨n1, body, h1, h2, h3, h3'⟩ := block_records_tags D bits rshunt w ma
      obtain ⟨n2, bs, h4, h5, h6, h7⟩ := ih (wrapInt32 (ma + istep)) (block D bits rshunt w ma)
      refine ⟨n1 ++ n2, (ma, body) :: bs, ?_, ?_, ?_, ?_⟩
      · rw [sweepLoop, if_pos hle, h4, h1, List.append_assoc]
      · rw [records, List.filterMap_append, List.flatMap_cons]
        exact congrArg₂ (· ++ ·) h2 h5
      · rw [loopValues, if_pos hle, List.map_cons, h6]
      · intro b hb
        rcases List.mem_cons.mp hb with rfl | hb
        · exact ⟨h3, h3'⟩
        · exact h7 b hb
    · exact ⟨[], [], by simp [sweepLoop, hle, Outcome.world], by simp [records],
        by simp [loopValues, hle], by simp⟩

/-- With a positive step, no wrap-around and a sufficient budget the loop variable takes
exactly the values `imin, imin + istep, ...` not above `imax`. -/
theorem loopValues_eq_visited (imax istep : Int) (hstep : 0 < istep)
    (hmax : imax + istep ≤ 2147483647) :
    ∀ (fuel : Nat) (ma : Int), -2147483648 ≤ ma → tripCount ma imax istep < fuel →
      loopValues imax istep fuel ma = visited ma imax istep := by
  intro fuel
  induction fuel with
  | zero => intro ma _ h; omega
  | succ fuel ih =>
    intro ma hlo hfuel
    by_cases hle : ma ≤ imax
    · have hw : wrapInt32 (ma + istep) = ma + istep := wrapInt32_id _ (by omega) (by omega)
      rw [loopValues, if_pos hle, hw, ih (ma + istep) (by omega)
        (by rw [tripCount_succ ma imax istep hstep hle] at hfuel; omega),
        visited_cons ma imax istep hstep hle]
    · rw [loopValues, if_neg hle, visited_nil ma imax istep hstep (by omega)]

/-- C10: whatever the configuration and however far the sweep has got, the lines printed so
far are a concatenation of blocks, one for each value the loop variable has taken, in the
order it took them (with a positive step, no overflow of `int` and a sufficient budget:
`imin, imin + istep, ...` up to `imax`).  Each block is one section header carrying
`max_current_ma` and `max_current_a = max_current_ma / 1000.0`, then only `SKIP` and `DATA`
lines of that same `max_current_ma` (for each `scale` from 1 to 8 in order, one `SKIP` line
or the `DATA` lines 1, 2, 3), then one section footer carrying the same two values. -/
theorem C10_block_structure {σ : Type} (D : Driver σ) (bits : ConfigBits) (rshunt : Rat)
    (imin imax istep : Int) (fuel : Nat) (w : World σ) :
    ∃ (new : List Event) (blocks : List (Int × List Record)),
      (calculate_and_configure_calibration D bits rshunt imin imax istep fuel w).world.trace =
        w.trace ++ new ∧
      records new = blocks.flatMap (fun b =>
        Record.header b.1 (max_current_a b.1) ::
          (b.2 ++ [Record.footer b.1 (max_current_a b.1)])) ∧
      blocks.map Prod.fst = loopValues imax istep fuel imin ∧
      (∀ b ∈ blocks, (∀ r ∈ b.2, r.isTrialLineOf b.1 = true) ∧
        b.2.map Record.tag = [1, 2, 3, 4, 5, 6, 7, 8].flatMap (fun scale =>
          if 65535 < calibration rshunt b.1 scale then [Tag.skip b.1 scale]
          else [Tag.data 1 b.1 scale, Tag.data 2 b.1 scale, Tag.data 3 b.1 scale])) ∧
      (0 < istep → -2147483648 ≤ imin → imax + istep ≤ 2147483647 →
        tripCount imin imax istep < fuel →
        loopValues imax istep fuel imin =
          (List.range (tripCount imin imax istep)).map
            (fun (k : Nat) => imin + (k : Int) * istep)) := by
  obtain ⟨new, blocks, h1, h2, h3, h4⟩ :=
    sweepLoop_blocks_tags D bits rshunt imax istep fuel imin w
  exact ⟨new, blocks, h1, h2, h3, h4, fun a b c d =>
    loopValues_eq_visited imax istep a c fuel imin b d⟩

/-- C10, witness: the sweep from 205 mA to 210 mA in steps of 5 mA on the simulated device
prints two blocks, for 205 and for 210, of 26 lines each. -/
theorem C10_block_structure_witness :
    loopValues 210 5 3 205 = [205, 210] ∧
    (records (calculate_and_configure_calibration simDriver stdBits main_rshunt 205 210 5 3
      simWorld).world.trace).length = 52 ∧
    ∃ (new : List Event) (blocks : List (Int × List Record)),
      (calculate_and_configure_calibration simDriver stdBits main_rshunt 205 210 5 3
        simWorld).world.trace = simWorld.trace ++ new ∧
      records new = blocks.flatMap (fun b =>
        Record.header b.1 (max_current_a b.1) ::
          (b.2 ++ [Record.footer b.1 (max_current_a b.1)])) ∧
      blocks.map Prod.fst = [205, 210] := by
  obtain ⟨new, blocks, h1, h2, h3, -⟩ :=
    C10_block_structure simDriver stdBits main_rshunt 205 210 5 3 simWorld
  exact ⟨by decide, by decide!, new, blocks, h1, h2, h3.trans (by decide)⟩

/-! ## C11 -/

/-- The device state after the sweep, returned or not: the blocks of the values the loop
variable has taken, applied in order. -/
theorem sweepLoop_dev {σ : Type} (D : Driver σ) (bits : ConfigBits) (rshunt : Rat)
    (imax istep : Int) :
    ∀ (fuel : Nat) (ma : Int) (w : World σ),
      (sweepLoop D bits rshunt imax istep fuel ma w).world.dev =
        (loopValues imax istep fuel ma).foldl (blockDevice D bits rshunt) w.dev := by
  intro fuel
  induction fuel with
  | zero => intro ma w; rfl
  | succ fuel ih =>
    intro ma w
    by_cases hle : ma ≤ imax
    · rw [sweepLoop, if_pos hle, ih, loopValues, if_pos hle, List.foldl_cons, block_dev]
    · rw [sweepLoop, if_neg hle, loopValues, if_neg hle]
      rfl

/-- The headers printed by the sweep, returned or not, carry the values the loop variable
has taken. -/
theorem sweepLoop_headerValues_any {σ : Type} (D : Driver σ) (bits : ConfigBits)
    (rshunt : Rat) (imax istep : Int) :
    ∀ (fuel : Nat) (ma : Int) (w : World σ), ∃ new,
      (sweepLoop D bits rshunt imax istep fuel ma w).world.trace = w.trace ++ new ∧
      headerValues new = loopValues imax istep fuel ma := by
  intro fuel
  induction fuel with
  | zero => intro ma w; exact ⟨[], by simp [sweepLoop, Outcome.world], by simp [headerValues, loopValues]⟩
  | succ fuel ih =>
    intro ma w
    by_cases hle : ma ≤ imax
    · obtain ⟨n1, h1, h2⟩ := block_headerValues D bits rshunt w ma
      obtain ⟨n2, h4, h5⟩ := ih (wrapInt32 (ma + istep)) (block D bits rshunt w ma)
      refine ⟨n1 ++ n2, ?_, ?_⟩
      · rw [sweepLoop, if_pos hle, h4, h1, List.append_assoc]
      · rw [headerValues, List.filterMap_append, h2, loopValues, if_pos hle, ← h5]
        rfl
    · exact ⟨[], by simp [sweepLoop, hle, Outcome.world], by simp [headerValues, loopValues, hle]⟩

/-- C11, counterexample: the value written is not always `calibration_raw mod 65536`.
For `rshunt = 10.24` (as a `double`), `max_current_ma = 1`, `scale = 1` the exact
`calibration_raw` is 131071, above 65535, and `131071 mod 65536 = 65535`; the `double`
computed on source line 32 is exactly 131072.0 and the value written is 0.  For
`rshunt = 0.0003`, `max_current_ma = 1`, `scale = 1` the exact `calibration_raw` and the
integral part of the computed `double` are both 4473924266, beyond the range of a 32-bit
`int`, and `4473924266 mod 65536 = 43690`; the value written is 0. -/
theorem C11_value_is_not_always_raw_mod_65536 :
    calibration_raw_spec (rn (1024 / 100)) 1 1 = 131071 ∧
    (131071 : Int) % 65536 = 65535 ∧
    calibration_f64 (rn (1024 / 100)) 1 1 = 131072 ∧
    calibration (rn (1024 / 100)) 1 1 = 0 ∧
    calibrationWrites (trial simDriver stdBits (rn (1024 / 100)) 1 simWorld 1).trace = [0] ∧
    calibration_raw_spec (rn (3 / 10000)) 1 1 = 4473924266 ∧
    Rat.floor (calibration_f64 (rn (3 / 10000)) 1 1) = 4473924266 ∧
    (4473924266 : Int) % 65536 = 43690 ∧
    calibration (rn (3 / 10000)) 1 1 = 0 ∧
    calibrationWrites (trial simDriver stdBits (rn (3 / 10000)) 1 simWorld 1).trace = [0] := by
  decide!

/-- C11, as amended: the value tested on source line 34 is a `uint16_t`, so the test is
never true.  For every configuration, and however far the sweep has got, no `SKIP` line has
been printed and every trial point of every value the loop variable has taken has been
programmed: a calibration write and the `DATA` lines 1, 2, 3 for each `scale` from 1 to 8,
the device having gone through the calls of all these trials in order.  The value written
is the integral part of the `double` computed on line 32 modulo 65536 when that integral
part is above 65535 and within the range of a 32-bit `int`; it is the exact
`calibration_raw` modulo 65536 when moreover the exact quotient lies at least `10 ^ (-5)`
away from the integers on both sides.  For `rshunt = 0.1`, `max_current_ma = 100`,
`scale = 1` both are 134217 and 3145 is written. -/
theorem C11_never_skipped_value_wraps {σ : Type} (D : Driver σ) (bits : ConfigBits)
    (rshunt : Rat) (imin imax istep : Int) (fuel : Nat) (w : World σ) :
    (∀ ma scale : Int, ¬ 65535 < calibration rshunt ma scale) ∧
    (∃ new,
      (calculate_and_configure_calibration D bits rshunt imin imax istep fuel w).world.trace =
        w.trace ++ new ∧
      skipLines new = [] ∧
      headerValues new = loopValues imax istep fuel imin ∧
      tags new = (headerValues new).flatMap (fun ma =>
        Tag.header ma :: ([1, 2, 3, 4, 5, 6, 7, 8].flatMap (fun scale =>
          [Tag.program (calibration rshunt ma scale), Tag.data 1 ma scale,
            Tag.data 2 ma scale, Tag.data 3 ma scale]) ++ [Tag.footer ma])) ∧
      (calculate_and_configure_calibration D bits rshunt imin imax istep fuel w).world.dev =
        (headerValues new).foldl (fun d ma =>
          [1, 2, 3, 4, 5, 6, 7, 8].foldl (trialDevice D bits rshunt ma) d) w.dev) ∧
    (∀ ma scale : Int, 65535 < Rat.floor (calibration_f64 rshunt ma scale) →
      Rat.floor (calibration_f64 rshunt ma scale) ≤ 2147483647 →
      calibration rshunt ma scale =
        (Rat.floor (calibration_f64 rshunt ma scale) % 65536).toNat) ∧
    (∀ ma scale : Int, 0 < rshunt → 0 < ma → 1 ≤ scale →
      65535 < calibration_raw_spec rshunt ma scale →
      calibration_raw_spec rshunt ma scale ≤ 2147483647 →
      (calibration_raw_spec rshunt ma scale : Rat) + 1 / 10 ^ 5 ≤
        calibration_quotient_spec rshunt ma scale →
      calibration_quotient_spec rshunt ma scale + 1 / 10 ^ 5 ≤
        (calibration_raw_spec rshunt ma scale : Rat) + 1 →
      calibration rshunt ma scale = (calibration_raw_spec rshunt ma scale % 65536).toNat) ∧
    Rat.floor (calibration_f64 main_rshunt 100 1) = 134217 ∧
    calibration_raw_spec main_rshunt 100 1 = 134217 ∧
    calibration main_rshunt 100 1 = 3145 ∧
    (134217 : Int) % 65536 = 3145 := by
  refine ⟨calibration_not_gt rshunt, ?_, ?_, ?_, by decide!, by decide!, by decide!, by decide⟩
  · obtain ⟨n1, a1, a2⟩ := sweepLoop_filterMap_any D bits rshunt imax istep Event.skipLine?
      (fun _ => [])
      (fun w ma => by
        obtain ⟨new, h1, h2, h3⟩ := block_filterMap_header D bits rshunt Event.skipLine?
          (fun _ _ => []) (fun ma w s => trial_skipLines D bits rshunt ma w s) w ma
        exact ⟨new, h1, by rw [h2]; rfl, h3⟩)
      fuel imin w
    obtain ⟨n2, b1, b2⟩ := sweepLoop_filterMap_any D bits rshunt imax istep Event.tag?
      (fun ma => Tag.header ma :: ([1, 2, 3, 4, 5, 6, 7, 8].flatMap (fun scale =>
          [Tag.program (calibration rshunt ma scale), Tag.data 1 ma scale,
            Tag.data 2 ma scale, Tag.data 3 ma scale]) ++ [Tag.footer ma]))
      (fun w ma => by
        obtain ⟨new, h1, h2, h3⟩ := block_filterMap_header D bits rshunt Event.tag?
          (fun ma scale => [Tag.program (calibration rshunt ma scale), Tag.data 1 ma scale,
            Tag.data 2 ma scale, Tag.data 3 ma scale])
          (fun ma w s => trial_tags_programmed D bits rshunt ma w s) w ma
        exact ⟨new, h1, by rw [h2]; rfl, h3⟩)
      fuel imin w
    obtain ⟨n3, c1, c2⟩ := sweepLoop_headerValues_any D bits rshunt imax istep fuel imin w
    have e : n2 = n1 := List.append_cancel_left (b1.symm.trans a1)
    subst e
    have e : n3 = n2 := List.append_cancel_left (c1.symm.trans a1)
    subst e
    refine ⟨n3, a1, ?_, c2, b2, ?_⟩
    · rw [skipLines, a2]
      clear a1 a2 b1 b2 c1 c2
      induction headerValues n3 with
      | nil => rfl
      | cons a l ih => rw [List.flatMap_cons, ih]; rfl
    · rw [c2]
      exact sweepLoop_dev D bits rshunt imax istep fuel imin w
  · intro ma scale h h31
    have h0 : (0 : Int) ≤ Rat.floor (calibration_f64 rshunt ma scale) := by omega
    unfold calibration
    exact toUint16_of_floor_wrap _ _ h0 h31 (Int.floor_le _) (Int.lt_floor_add_one _)
  · intro ma scale hr hma hs hraw h31 hlo hhi
    have hnear := calibration_f64_near rshunt ma scale hr hma (by omega)
    set q := calibration_quotient_spec rshunt ma scale with hq
    set n := calibration_raw_spec rshunt ma scale with hn
    have hq31 : q < 2147483648 := by
      have hn' : (n : Rat) ≤ 2147483647 := by exact_mod_cast h31
      linarith [show (0 : Rat) < 1 / 10 ^ 5 by norm_num]
    have hd := abs_le.mp hnear
    have hsmall : 1 / 2 ^ 48 * q < 1 / 10 ^ 5 := by
      have : (1 / 2 ^ 48 : Rat) * q < 1 / 2 ^ 48 * 2147483648 :=
        mul_lt_mul_of_pos_left hq31 (by norm_num)
      have h2 : (1 / 2 ^ 48 : Rat) * 2147483648 < 1 / 10 ^ 5 := by norm_num
      linarith
    unfold calibration
    apply toUint16_of_floor_wrap _ n (by omega) h31
    · linarith [hd.1]
    · linarith [hd.2]

/-- C11, witness: the trial point `rshunt = 0.1`, `max_current_ma = 100`, `scale = 1`, whose
computed value 134217 is written as 3145, in a one-block sweep: no `SKIP` line, eight resets,
sixteen delays, eight calibration writes, eight configuration writes and 72 reads. -/
theorem C11_never_skipped_value_wraps_witness :
    65535 < Rat.floor (calibration_f64 main_rshunt 100 1) ∧
    Rat.floor (calibration_f64 main_rshunt 100 1) ≤ 2147483647 ∧
    calibration main_rshunt 100 1 =
      (Rat.floor (calibration_f64 main_rshunt 100 1) % 65536).toNat ∧
    skipLines (calculate_and_configure_calibration simDriver stdBits main_rshunt 100 100 5 2
      simWorld).world.trace = [] ∧
    (calibrationWrites (calculate_and_configure_calibration simDriver stdBits main_rshunt
      100 100 5 2 simWorld).world.trace).head? = some 3145 ∧
    (calculate_and_configure_calibration countDriver stdBits main_rshunt 100 100 5 2
      ⟨⟨0, 0, 0, 0, 0⟩, []⟩).world.dev = ⟨8, 16, 8, 8, 72⟩ :=
  ⟨by decide!, by decide!,
    (C11_never_skipped_value_wraps simDriver stdBits main_rshunt 100 100 5 2 simWorld).2.2.1
      100 1 (by decide!) (by decide!),
    by decide!, by decide!, by decide!⟩

/-! ## C12 -/

theorem countDriver_trials (bits : ConfigBits) (rshunt : Rat) (ma : Int) :
    ∀ (l : List Int) (c : Calls), l.foldl (trialDevice countDriver bits rshunt ma) c =
      ⟨c.resets + l.length, c.delays + 2 * l.length, c.calibrations + l.length,
        c.configs + l.length, c.reads + 9 * l.length⟩ := by
  intro l
  induction l with
  | nil => intro c; rfl
  | cons s l ih =>
    intro c
    rw [List.foldl_cons, ih]
    simp only [trialDevice, countDriver, List.length_cons, Calls.mk.injEq]
    refine ⟨?_, ?_, ?_, ?_, ?_⟩ <;> omega

/-- The counters of the counting device after the blocks of the values `l`. -/
theorem countDriver_blocks (bits : ConfigBits) (rshunt : Rat) :
    ∀ (l : List Int) (c : Calls),
      l.foldl (fun d ma =>
        [1, 2, 3, 4, 5, 6, 7, 8].foldl (trialDevice countDriver bits rshunt ma) d) c =
      ⟨c.resets + 8 * l.length, c.delays + 16 * l.length, c.calibrations + 8 * l.length,
        c.configs + 8 * l.length, c.reads + 72 * l.length⟩ := by
  intro l
  induction l with
  | nil => intro c; rfl
  | cons s l ih =>
    intro c
    rw [List.foldl_cons, ih, countDriver_trials]
    simp only [List.length_cons, List.length_nil, Calls.mk.injEq]
    refine ⟨?_, ?_, ?_, ?_, ?_⟩ <;> omega

/-- C12: the sweep configured by `main` (0.1 ohm, 205 mA to 3200 mA in steps of 5 mA)
returns once the iteration budget exceeds 600.  It prints 600 section headers, for 205,
210, ..., 3200, as many footers, 14400 `DATA` lines and no `SKIP` line, and writes the
calibration register 4800 times; the device has gone through the calls of the 4800 trials
(8 for each of the 600 values, none skipped) in order.  Every trial point has a full-precision calibration value,
exact or as computed in `double`, between 524 (at 3200 mA, scale 8) and 65472 (at 205 mA,
scale 1), which is written unchanged. -/
theorem C12_main_sweep_counts {σ : Type} (D : Driver σ) (bits : ConfigBits) (fuel : Nat)
    (w : World σ) (hfuel : 600 < fuel) :
    ∃ w' new,
      main_sweep D bits fuel w = Outcome.returned w' ∧
      w'.trace = w.trace ++ new ∧
      w'.dev = (headerValues new).foldl (fun d ma =>
        [1, 2, 3, 4, 5, 6, 7, 8].foldl (trialDevice D bits main_rshunt ma) d) w.dev ∧
      headerValues new = (List.range 600).map (fun (k : Nat) => (205 : Int) + (k : Int) * 5) ∧
      (headerValues new).length = 600 ∧
      (headerValues new).getLast? = some 3200 ∧
      footerValues new = headerValues new ∧
      (footerValues new).length = 600 ∧
      (dataIndices new).length = 14400 ∧
      skipLines new = [] ∧
      (calibrationWrites new).length = 4800 ∧
      calibrationWrites new = (headerValues new).flatMap (fun ma =>
        [1, 2, 3, 4, 5, 6, 7, 8].map (fun scale => calibration main_rshunt ma scale)) ∧
      (∀ ma ∈ headerValues new, ∀ scale : Int, 1 ≤ scale → scale ≤ 8 →
        524 ≤ calibration_raw_spec main_rshunt ma scale ∧
        calibration_raw_spec main_rshunt ma scale ≤ 65472 ∧
        524 ≤ Rat.floor (calibration_f64 main_rshunt ma scale) ∧
        Rat.floor (calibration_f64 main_rshunt ma scale) ≤ 65472 ∧
        calibration main_rshunt ma scale =
          (Rat.floor (calibration_f64 main_rshunt ma scale)).toNat) ∧
      calibration_raw_spec main_rshunt 3200 8 = 524 ∧
      calibration_raw_spec main_rshunt 205 1 = 65472 ∧
      calibration main_rshunt 3200 8 = 524 ∧
      calibration main_rshunt 205 1 = 65472 := by
  have htc : tripCount 205 3200 5 = 600 := by decide
  have hret := sweepLoop_returns D bits main_rshunt 3200 5 (by decide) (by decide) fuel 205 w
    (by decide) (by rw [htc]; exact hfuel)
  have hvis : visited 205 3200 5 =
      (List.range 600).map (fun (k : Nat) => (205 : Int) + (k : Int) * 5) := by
    rw [visited, htc]
  obtain ⟨n1, a1, a2⟩ := foldl_filterMap (block D bits main_rshunt) Event.headerValue?
    (fun ma => [ma]) (block_headerValues D bits main_rshunt) (visited 205 3200 5) w
  obtain ⟨n2, b1, b2⟩ := foldl_filterMap (block D bits main_rshunt) Event.footerValue?
    (fun ma => [ma])
    (fun w ma => by
      obtain ⟨new, h1, h2⟩ := block_filterMap D bits main_rshunt Event.footerValue?
        (fun _ _ => []) (fun ma w s => trial_footerValues D bits main_rshunt ma w s) w ma
      exact ⟨new, h1, by rw [h2]; rfl⟩)
    (visited 205 3200 5) w
  obtain ⟨n3, c1, c2⟩ := foldl_filterMap (block D bits main_rshunt) Event.dataIndex?
    (fun _ => [1, 2, 3, 1, 2, 3, 1, 2, 3, 1, 2, 3, 1, 2, 3, 1, 2, 3, 1, 2, 3, 1, 2, 3])
    (fun w ma => by
      obtain ⟨new, h1, h2⟩ := block_filterMap D bits main_rshunt Event.dataIndex?
        (fun _ _ => [1, 2, 3]) (fun ma w s => trial_dataIndices D bits main_rshunt ma w s) w ma
      exact ⟨new, h1, by rw [h2]; rfl⟩)
    (visited 205 3200 5) w
  obtain ⟨n4, d1, d2⟩ := foldl_filterMap (block D bits main_rshunt) Event.skipLine?
    (fun _ => [])
    (fun w ma => by
      obtain ⟨new, h1, h2⟩ := block_filterMap D bits main_rshunt Event.skipLine?
        (fun _ _ => []) (fun ma w s => trial_skipLines D bits main_rshunt ma w s) w ma
      exact ⟨new, h1, by rw [h2]; rfl⟩)
    (visited 205 3200 5) w
  obtain ⟨n5, e1, e2⟩ := foldl_filterMap (block D bits main_rshunt) Event.calibrationWrite?
    (fun ma => [1, 2, 3, 4, 5, 6, 7, 8].map (fun scale => calibration main_rshunt ma scale))
    (fun w ma => by
      obtain ⟨new, h1, h2⟩ := block_filterMap D bits main_rshunt Event.calibrationWrite?
        (fun ma scale => [calibration main_rshunt ma scale])
        (fun ma w s => trial_writes D bits main_rshunt ma w s) w ma
      exact ⟨new, h1, by rw [h2]; rfl⟩)
    (visited 205 3200 5) w
  have x2 : n1 = n2 := List.append_cancel_left (a1.symm.trans b1)
  have x3 : n1 = n3 := List.append_cancel_left (a1.symm.trans c1)
  have x4 : n1 = n4 := List.append_cancel_left (a1.symm.trans d1)
  have x5 : n1 = n5 := List.append_cancel_left (a1.symm.trans e1)
  subst x2 x3 x4 x5
  have hlen : (visited 205 3200 5).length = 600 := by rw [hvis]; simp
  have hv : headerValues n1 = visited 205 3200 5 := by
    rw [headerValues, a2, flatMap_singleton_id]
  have hf : footerValues n1 = visited 205 3200 5 := by
    rw [footerValues, b2, flatMap_singleton_id]
  refine ⟨_, n1, hret, a1, ?_, hv.trans hvis, by rw [hv, hlen], ?_, hf.trans hv.symm,
    by rw [hf, hlen], ?_, ?_, ?_, by rw [hv]; exact e2, ?_, by decide!, by decide!, by decide!,
    by decide!⟩
  · rw [hv]
    exact foldl_dev (block D bits main_rshunt) (blockDevice D bits main_rshunt)
      (block_dev D bits main_rshunt) (visited 205 3200 5) w
  · rw [hv, hvis]
    decide!
  · have hc := length_flatMap_const (fun _ : Int =>
      ([1, 2, 3, 1, 2, 3, 1, 2, 3, 1, 2, 3, 1, 2, 3, 1, 2, 3, 1, 2, 3, 1, 2, 3] : List Int)) 24
      (fun _ => rfl) (visited 205 3200 5)
    rw [dataIndices, c2, hc, hlen]
  · have hc := length_flatMap_const (fun _ : Int => ([] : List (Int × Int × Nat))) 0
      (fun _ => rfl) (visited 205 3200 5)
    rw [skipLines, d2, ← List.length_eq_zero, hc, Nat.mul_zero]
  · have hc := length_flatMap_const (fun ma : Int =>
      [1, 2, 3, 4, 5, 6, 7, 8].map (fun scale => calibration main_rshunt ma scale)) 8
      (fun _ => rfl) (visited 205 3200 5)
    rw [calibrationWrites, e2, hc, hlen]
  · intro ma hma scale hs1 hs8
    rw [hv, hvis, List.mem_map] at hma
    obtain ⟨k, hk, rfl⟩ := hma
    rw [List.mem_range] at hk
    exact main_range _ scale (by omega) (by omega) hs1 hs8

/-- C12, witness: the sweep of `main` on the counting device with an iteration budget
of 601: the device has received 4800 resets, 9600 delays, 4800 calibration writes, 4800
configuration writes and 43200 reads. -/
theorem C12_main_sweep_counts_witness :
    600 < 601 ∧ tripCount 205 3200 5 = 600 ∧
    ∃ w' new,
      main_sweep countDriver stdBits 601 ⟨⟨0, 0, 0, 0, 0⟩, []⟩ = Outcome.returned w' ∧
      w'.trace = new ∧
      w'.dev = ⟨4800, 9600, 4800, 4800, 43200⟩ ∧
      (headerValues new).length = 600 ∧
      (headerValues new).getLast? = some 3200 ∧
      (footerValues new).length = 600 ∧
      (dataIndices new).length = 14400 ∧
      skipLines new = [] ∧
      (calibrationWrites new).length = 4800 := by
  obtain ⟨w', new, h1, h2, hd, -, h4, h5, -, h7, h8, h9, h10, -⟩ :=
    C12_main_sweep_counts countDriver stdBits 601 ⟨⟨0, 0, 0, 0, 0⟩, []⟩ (by decide)
  refine ⟨by decide, by decide, w', new, h1, by rw [h2]; rfl, ?_, h4, h5, h7, h8, h9, h10⟩
  rw [hd, countDriver_blocks, h4]

end INA219
